import Mathlib

/-!
Verification development for the text-scrambling core of `scrambler.py`.

The Python source is shallowly embedded: the `Scrambler` class becomes a
structure with explicit state passing, the `HTMLScrambler` subclass of
`HTMLParser` becomes an event-processing function over an explicit event
type (the tokenizer itself is the Python standard library, outside the
repository), and the in-place `random.SystemRandom().shuffle` calls are
modelled by an explicit shuffle function parameter `sh`; theorems that
depend on the shuffle being a permutation take `(sh l).Perm l` as a
hypothesis.

Python's Unicode tables (`str.lower`, `str.upper`, `str.isalpha`,
`str.isdigit`, `str.isupper`, `unicodedata.normalize("NFKD", ...)`) are
standard-library behaviour, not repository code; they are modelled here
over a representative character universe: the ASCII letters and digits
plus a sample of accented letters with their canonical decompositions.
Every other character is unclassified and passes through verbatim,
exactly as an unrecognized character does in the Python code.
-/

set_option maxRecDepth 4000

/-- Uppercase/lowercase letter pairs modelling Python's `str.lower` /
`str.upper` on the modelled character universe (ASCII letters plus a
sample of accented Latin letters). -/
def lowerPairs : List (Char × Char) :=
  [('A','a'),('B','b'),('C','c'),('D','d'),('E','e'),('F','f'),('G','g'),
   ('H','h'),('I','i'),('J','j'),('K','k'),('L','l'),('M','m'),('N','n'),
   ('O','o'),('P','p'),('Q','q'),('R','r'),('S','s'),('T','t'),('U','u'),
   ('V','v'),('W','w'),('X','x'),('Y','y'),('Z','z'),
   ('É','é'),('À','à'),('Ñ','ñ')]

/-- Accented-letter decompositions modelling
`unicodedata.normalize("NFKD", c)[0]` (the base character of the
canonical decomposition) on the modelled universe. -/
def nfkdPairs : List (Char × Char) :=
  [('é','e'),('É','E'),('à','a'),('À','A'),('ñ','n'),('Ñ','N')]

/-- Model of Python's `str.lower` on a single character. -/
def pyLower (c : Char) : Char :=
  ((lowerPairs.find? (fun p => p.1 == c)).map (·.2)).getD c

/-- Model of Python's `str.upper` on a single character. -/
def pyUpper (c : Char) : Char :=
  ((lowerPairs.find? (fun p => p.2 == c)).map (·.1)).getD c

/-- Model of `unicodedata.normalize("NFKD", c)[0]`. -/
def nfkdFirst (c : Char) : Char :=
  ((nfkdPairs.find? (fun p => p.1 == c)).map (·.2)).getD c

/-- The lowercase letters of the modelled universe. -/
def lowChars : List Char := lowerPairs.map (·.2)

/-- The uppercase letters of the modelled universe. -/
def upChars : List Char := lowerPairs.map (·.1)

/-- The letters of the modelled universe (`str.isalpha`). -/
def alphaChars : List Char := lowChars ++ upChars

/-- The digits of the modelled universe (`str.isdigit`). -/
def digitChars : List Char := "0123456789".data

/-- Model of Python's `str.isalpha` on a single character. -/
def pyIsAlpha (c : Char) : Bool := alphaChars.contains c

/-- Model of Python's `str.isdigit` on a single character. -/
def pyIsDigit (c : Char) : Bool := digitChars.contains c

/-- Model of Python's `str.isupper` on a single character. -/
def pyIsUpper (c : Char) : Bool := upChars.contains c

/-- Model of Python's `str.upper` on a string (used for
`self._pop_letter(c).upper()`, where the argument has length at most 1). -/
def pyUpperStr (s : String) : String := String.mk (s.data.map pyUpper)

/-- The consonant set `Scrambler._CONSONANTS`. -/
def pyConsonants : List Char := "bcdfghjklmnpqrstvwxz".data

/-- The vowel set `Scrambler._VOWELS`. -/
def pyVowels : List Char := "aeiouy".data

/-- Which of the scrambler's buffers a character is routed to:
the consonant, vowel, unified-letter or digit buffer, or no buffer at
all (a literal, preserved positionally). -/
inductive Bucket where
  | consB | vowelB | alphaB | digitB | litB
deriving DecidableEq, Repr

/-- The buffer that `Scrambler.feed` routes a character to.  For a letter
in preserve-letter-distribution mode the code tests
`unicodedata.normalize("NFKD", c.lower())[0]` against the consonant and
vowel sets; otherwise all letters share the unified buffer; digits go to
the digit buffer and everything else is a positional literal. -/
def classF (pres : Bool) (c : Char) : Bucket :=
  if pyIsAlpha c then
    if pres then
      let n := nfkdFirst (pyLower c)
      if pyConsonants.contains n then .consB
      else if pyVowels.contains n then .vowelB
      else .alphaB
    else .alphaB
  else if pyIsDigit c then .digitB
  else .litB

/-- State of the `Scrambler` class: the positional buffer `_buf` and the
four class buffers `_alpha`, `_cons`, `_vowels`, `_digits`, plus the
construction-time `preserve_letter_distribution` flag. -/
structure Scrambler where
  buf : List Char
  alpha : List Char
  cons : List Char
  vowels : List Char
  digits : List Char
  preserve : Bool
deriving DecidableEq, Repr

namespace Scrambler

/-- `Scrambler.__init__` (the `preserve_letter_distribution` parameter
defaults to `True` in the source). -/
def init (pres : Bool) : Scrambler := ⟨[], [], [], [], [], pres⟩

/-- `Scrambler.clear`. -/
def clear (st : Scrambler) : Scrambler := ⟨[], [], [], [], [], st.preserve⟩

/-- One character of `Scrambler.feed`: append to `_buf`; letters are
lowercased and routed by the NFKD base character to `_cons`, `_vowels`
or `_alpha`; digits go to `_digits`. -/
def feedChar (st : Scrambler) (c : Char) : Scrambler :=
  let st := { st with buf := st.buf ++ [c] }
  if pyIsAlpha c then
    let cl := pyLower c
    if st.preserve then
      let n := nfkdFirst cl
      if pyConsonants.contains n then { st with cons := st.cons ++ [cl] }
      else if pyVowels.contains n then { st with vowels := st.vowels ++ [cl] }
      else { st with alpha := st.alpha ++ [cl] }
    else { st with alpha := st.alpha ++ [cl] }
  else if pyIsDigit c then { st with digits := st.digits ++ [c] }
  else st

/-- `Scrambler.feed`. -/
def feed (st : Scrambler) (text : String) : Scrambler :=
  text.data.foldl feedChar st

/-- `Scrambler._pop_letter`: pop the head of the class buffer selected by
`unicodedata.normalize("NFKD", c)[0].lower()` (or of the unified letter
buffer when distribution is not preserved).  An `IndexError` from an
empty buffer is caught and turned into the empty string — the buffer
state is unchanged in that case, exactly as in the Python `try` block. -/
def popLetter (pres : Bool) (cons vowels alpha : List Char) (c : Char) :
    String × List Char × List Char × List Char :=
  if pres then
    let n := nfkdFirst c
    if pyConsonants.contains (pyLower n) then
      match cons with
      | [] => ("", [], vowels, alpha)
      | x :: xs => (String.singleton x, xs, vowels, alpha)
    else if pyVowels.contains (pyLower n) then
      match vowels with
      | [] => ("", cons, [], alpha)
      | x :: xs => (String.singleton x, cons, xs, alpha)
    else
      match alpha with
      | [] => ("", cons, vowels, [])
      | x :: xs => (String.singleton x, cons, vowels, xs)
  else
    match alpha with
    | [] => ("", cons, vowels, [])
    | x :: xs => (String.singleton x, cons, vowels, xs)

/-- The loop body of `Scrambler.flush`, walking `_buf` and replaying each
position: letters pop from their class buffer (re-uppercased when the
original was uppercase), digits pop `self._digits.pop(0)` — which, on an
empty digit buffer, raises an uncaught `IndexError`, modelled as `none` —
and every other character is preserved verbatim. -/
def flushGo (pres : Bool) :
    List Char → List Char → List Char → List Char → List Char →
    Option (List String)
  | [], _, _, _, _ => some []
  | c :: rest, cons, vowels, alpha, digits =>
    if pyIsAlpha c then
      let r := popLetter pres cons vowels alpha c
      let piece := if pyIsUpper c then pyUpperStr r.1 else r.1
      (flushGo pres rest r.2.1 r.2.2.1 r.2.2.2 digits).map (piece :: ·)
    else if pyIsDigit c then
      match digits with
      | [] => none
      | d :: ds =>
        (flushGo pres rest cons vowels alpha ds).map (String.singleton d :: ·)
    else
      (flushGo pres rest cons vowels alpha digits).map (String.singleton c :: ·)

/-- `Scrambler.flush`: replay the buffer, then clear all state and return
the joined text.  `none` models the uncaught `IndexError` of
`self._digits.pop(0)` on an empty digit buffer. -/
def flush (st : Scrambler) : Option (String × Scrambler) :=
  (flushGo st.preserve st.buf st.cons st.vowels st.alpha st.digits).map
    (fun ps => (String.join ps, st.clear))

/-- `Scrambler.scramble`: shuffle `_alpha`, `_digits` and — when the
letter distribution is preserved — `_cons` and `_vowels`, then flush.
The in-place `random.SystemRandom().shuffle` is modelled by the explicit
shuffle function `sh`. -/
def scramble (sh : List Char → List Char) (st : Scrambler) :
    Option (String × Scrambler) :=
  flush { st with
            alpha := sh st.alpha
            cons := if st.preserve then sh st.cons else st.cons
            vowels := if st.preserve then sh st.vowels else st.vowels
            digits := sh st.digits }

end Scrambler

/-! ### String helpers modelling Python standard-library calls -/

/-- Model of Python's `s.split("<>")`: split a character list at each
non-overlapping, leftmost-first occurrence of the two-character
placeholder `<>`. -/
def splitOnMarker : List Char → List (List Char)
  | [] => [[]]
  | [c] => [[c]]
  | a :: b :: rest =>
    if a = '<' ∧ b = '>' then [] :: splitOnMarker rest
    else
      match splitOnMarker (b :: rest) with
      | [] => [[a]]
      | h :: t => (a :: h) :: t

/-- Does `needle` occur as a contiguous run inside `hay`? (used for the
`"//DTD XHTML " in decl` test). -/
def containsSeq (needle : List Char) : List Char → Bool
  | [] => needle.isEmpty
  | h :: t => needle.isPrefixOf (h :: t) || containsSeq needle t

/-- Characters Python's `urllib.parse.quote` never escapes
(`_ALWAYS_SAFE`: ASCII letters, digits, and `_.-~`), together with the
default `safe='/'`. -/
def quoteSafe (c : Char) : Bool :=
  (('a' ≤ c ∧ c ≤ 'z') ∨ ('A' ≤ c ∧ c ≤ 'Z') ∨ ('0' ≤ c ∧ c ≤ '9')) ||
  c = '_' || c = '.' || c = '-' || c = '~' || c = '/'

/-- Uppercase hexadecimal digit. -/
def hexDigit (n : Nat) : Char := "0123456789ABCDEF".data.getD n '0'

/-- UTF-8 encoding of a single character, as byte values. -/
def utf8Bytes (c : Char) : List Nat :=
  let n := c.toNat
  if n < 0x80 then [n]
  else if n < 0x800 then [0xC0 + n / 64, 0x80 + n % 64]
  else if n < 0x10000 then
    [0xE0 + n / 4096, 0x80 + (n / 64) % 64, 0x80 + n % 64]
  else
    [0xF0 + n / 262144, 0x80 + (n / 4096) % 64, 0x80 + (n / 64) % 64,
     0x80 + n % 64]

/-- Model of Python's `urllib.parse.quote` with the default `safe='/'`:
safe characters pass through, every other character is replaced by the
percent-encoding of its UTF-8 bytes.  Note `/` is NOT escaped. -/
def pyQuote (s : String) : String :=
  String.mk (s.data.foldr
    (fun c acc =>
      (if quoteSafe c then [c]
       else (utf8Bytes c).foldr
         (fun b acc2 => '%' :: hexDigit (b / 16) :: hexDigit (b % 16) :: acc2)
         []) ++ acc)
    [])

/-- Split the scheme off a URL: `scheme://rest` becomes
`some (scheme, rest)`. -/
def schemeSplit : List Char → Option (List Char × List Char)
  | [] => none
  | ':' :: '/' :: '/' :: rest => some ([], rest)
  | c :: rest => (schemeSplit rest).map (fun p => (c :: p.1, p.2))

/-- The directory part of a path: everything up to and including the last
`/`, or `/` alone when the path has none. -/
def dirPart (path : List Char) : List Char :=
  let r := path.reverse.dropWhile (· ≠ '/')
  if r = [] then ['/'] else r.reverse

/-- Model of Python's `urllib.parse.urljoin` for the URL shapes this
program exercises (the real routine lives in the standard library, not
in the repository): a URL carrying its own scheme is returned as is, a
`//`-prefixed URL takes the base's scheme, an absolute path replaces the
base's path, and a relative path is resolved against the directory of
the base's path. -/
def pyUrljoin (base url : String) : String :=
  match schemeSplit url.data with
  | some _ => url
  | none =>
    match schemeSplit base.data with
    | none => url
    | some (scheme, rest) =>
      if url.data.take 2 = ['/', '/'] then
        String.mk (scheme ++ ':' :: url.data)
      else
        let netloc := rest.takeWhile (· ≠ '/')
        let path := rest.dropWhile (· ≠ '/')
        if url.data.take 1 = ['/'] then
          String.mk (scheme ++ ':' :: '/' :: '/' :: netloc ++ url.data)
        else if url.data = [] then base
        else
          String.mk (scheme ++ ':' :: '/' :: '/' :: netloc ++
                     dirPart path ++ url.data)

/-- One character of Python's `html.escape(s, quote=True)`.  The Python
code performs sequential `str.replace` calls, `&` first; since the
replacement texts contain no further escapable characters this equals
the character-wise map below. -/
def escChar (c : Char) : List Char :=
  if c = '&' then "&amp;".data
  else if c = '<' then "&lt;".data
  else if c = '>' then "&gt;".data
  else if c = '"' then "&quot;".data
  else if c = Char.ofNat 39 then "&#x27;".data
  else [c]

/-- The escaped form of a character list. -/
def escData : List Char → List Char
  | [] => []
  | c :: rest => escChar c ++ escData rest

/-- Model of Python's `html.escape(s, quote=True)`. -/
def htmlEscape (s : String) : String := String.mk (escData s.data)

/-- Python's `str.strip` whitespace (the characters relevant here). -/
def pyWs (c : Char) : Bool := c = ' ' || c = '\t' || c = '\n' || c = '\r'

/-- Model of Python's `str.strip()`. -/
def pyStrip (l : List Char) : List Char :=
  ((l.dropWhile pyWs).reverse.dropWhile pyWs).reverse

/-- Model of Python's `str.split(",")`. -/
def splitComma : List Char → List (List Char)
  | [] => [[]]
  | ',' :: rest => [] :: splitComma rest
  | c :: rest =>
    match splitComma rest with
    | [] => [[c]]
    | h :: t => (c :: h) :: t

/-! ### The encoding-conversion step of `HTMLScrambler.scramble` -/

/-- A Python text codec, modelled abstractly: `encChar` gives the byte
sequence of an encodable character (`none` when the target encoding
cannot natively represent it), and `decByte` decodes one byte
(`none` for an undecodable byte, which the `"ignore"` error handler
drops).  This byte-wise model matches the single-byte codecs the
program is used with. -/
structure PyEncoding where
  encChar : Char → Option (List Nat)
  decByte : Nat → Option Char

/-- The XML character reference Python's `xmlcharrefreplace` error
handler substitutes for an unencodable character. -/
def charrefStr (c : Char) : String := "&#" ++ toString c.toNat ++ ";"

/-- The bytes of that character reference (pure ASCII). -/
def charrefBytes (c : Char) : List Nat := (charrefStr c).data.map Char.toNat

/-- `chunk.encode(target_encoding, "xmlcharrefreplace")`. -/
def encodeXmlcr (te : PyEncoding) : List Char → List Nat
  | [] => []
  | c :: rest =>
    (match te.encChar c with
     | some bs => bs
     | none => charrefBytes c) ++ encodeXmlcr te rest

/-- `bytes.decode(source_encoding, "ignore")`. -/
def decodeIgn (se : PyEncoding) (bs : List Nat) : List Char :=
  bs.filterMap se.decByte

/-- The per-chunk conversion of `HTMLScrambler.scramble` when both a
source and a target encoding are set:
`chunk.encode(target, "xmlcharrefreplace").decode(source, "ignore")`. -/
def convertChunk (se te : PyEncoding) (s : String) : String :=
  String.mk (decodeIgn se (encodeXmlcr te s.data))

/-! ### The HTML scrambler -/

/-- The tokenizer events Python's `html.parser.HTMLParser` delivers to
the `HTMLScrambler` handler methods.  The tokenizer itself is standard
library; only the handlers are repository code.  Attribute values arrive
as `Option String`, `none` being a genuinely valueless attribute (the
source distinguishes it from an empty value). -/
inductive Event where
  | starttag (tag : String) (attrs : List (String × Option String))
  | startendtag (tag : String) (attrs : List (String × Option String))
  | endtag (tag : String)
  | data (s : String)
  | entityref (name : String)
  | charref (name : String)
  | comment (s : String)
  | decl (s : String)
deriving DecidableEq, Repr

/-- `HTMLScrambler._VOID_ELEMENTS`. -/
def voidElements : List String :=
  ["area", "base", "br", "col", "embed", "hr", "img", "input", "link",
   "meta", "param", "source", "track", "wbr",
   "command", "keygen", "menuitem"]

/-- `HTMLScrambler._DONT_SCRAMBLE`. -/
def dontScramble : List String := ["script", "style"]

/-- State of the `HTMLScrambler` class.  The source and target encodings
of `__init__` are not stored here; they are passed directly to
`HTMLScrambler.scramble`, the only method that reads them. -/
structure HTMLScrambler where
  base_url : String
  is_honeypot : Bool
  suppress_scripts : Bool
  buf : List String
  html : List String
  is_scrambling : Bool
  is_script : Bool
  is_xhtml : Bool
deriving DecidableEq, Repr

namespace HTMLScrambler

/-- `HTMLScrambler.__init__`: note
`self._suppress_scripts = suppress_scripts or self._is_honeypot`. -/
def init (base_url : String) (is_honeypot : Bool)
    (suppress_scripts : Bool) : HTMLScrambler :=
  { base_url := base_url
    is_honeypot := is_honeypot
    suppress_scripts := suppress_scripts || is_honeypot
    buf := []
    html := []
    is_scrambling := true
    is_script := false
    is_xhtml := false }

/-- The `srcset` branch of `_process_attr_value`: split on commas, strip,
resolve each source of a source/size pair or bare source against the
base URL, and rejoin with `", "`. -/
def srcsetValue (base : String) (value : String) : String :=
  let items := (splitComma value.data).map pyStrip
  let parts := items.map (fun item =>
    if item.contains ' ' then
      let src := item.takeWhile (· ≠ ' ')
      let size := (item.dropWhile (· ≠ ' ')).drop 1
      (pyUrljoin base (String.mk src)) ++ " " ++ String.mk size
    else
      pyUrljoin base (String.mk item))
  String.intercalate ", " parts

/-- The single-attribute scramble of the `alt`/`placeholder`/`title`/
`value` branch: a fresh `Scrambler()` is fed the value and scrambled.
The `none` branch is unreachable when `sh` permutes its argument
(in Python it would be an uncaught `IndexError`). -/
def attrScramble (sh : List Char → List Char) (value : String) : String :=
  match Scrambler.scramble sh (Scrambler.feed (Scrambler.init true) value) with
  | some (s, _) => s
  | none => ""

/-- `HTMLScrambler._process_attr_value`. -/
def processAttrValue (sh : List Char → List Char)
    (base : String) (is_honeypot : Bool)
    (tag attr value : String) : String :=
  let value :=
    if (tag = "a" ∧ attr = "href") ∨
       ((tag = "frame" ∨ tag = "iframe") ∧ attr = "src") then
      let target := pyQuote (pyUrljoin base value)
      if is_honeypot then "?honeypot=1&url=" ++ target
      else "?url=" ++ target
    else if attr = "action" ∨ attr = "href" ∨ attr = "src" then
      pyUrljoin base value
    else if attr = "srcset" then
      srcsetValue base value
    else if attr = "alt" ∨ attr = "placeholder" ∨ attr = "title" ∨
            attr = "value" then
      attrScramble sh value
    else value
  htmlEscape value

/-- `HTMLScrambler._build_starttag`. -/
def buildStarttag (sh : List Char → List Char)
    (base : String) (is_honeypot is_xhtml : Bool)
    (tag : String) (attrs : List (String × Option String))
    (is_empty : Bool) : String :=
  let attrText := attrs.foldl
    (fun acc p =>
      let head := acc ++ " " ++ p.1
      match p.2 with
      | some v => head ++ "=\"" ++ processAttrValue sh base is_honeypot tag p.1 v ++ "\""
      | none => if is_xhtml then head ++ "=\"" ++ p.1 ++ "\"" else head)
    ("<" ++ tag)
  let withDisabled :=
    if tag = "input" then
      attrText ++ " disabled" ++ (if is_xhtml then "=\"disabled\"" else "")
    else attrText
  if is_xhtml ∧ (is_empty ∨ voidElements.contains tag) then
    withDisabled ++ " />"
  else
    withDisabled ++ ">"

/-- Dispatch of one tokenizer event to the corresponding handler method
(`handle_starttag`, `handle_startendtag`, `handle_endtag`,
`handle_data`, `handle_entityref`, `handle_charref`, `handle_comment`,
`handle_decl`), translated clause by clause from the source. -/
def processEvent (sh : List Char → List Char) (st : HTMLScrambler) :
    Event → HTMLScrambler
  | .starttag tag attrs =>
    let st1 := if tag = "script" then { st with is_script := true }
               else if dontScramble.contains tag then
                 { st with is_scrambling := false }
               else st
    if tag = "script" ∧ st.suppress_scripts then st1
    else
      { st1 with
          html := st1.html ++
            [buildStarttag sh st.base_url st.is_honeypot st.is_xhtml
              tag attrs false]
          buf := st1.buf ++ ["<>"] }
  | .startendtag tag attrs =>
    if tag = "script" ∧ st.suppress_scripts then st
    else
      { st with
          html := st.html ++
            [buildStarttag sh st.base_url st.is_honeypot st.is_xhtml
              tag attrs true]
          buf := st.buf ++ ["<>"] }
  | .endtag tag =>
    let st1 := if tag = "script" then { st with is_script := false }
               else if dontScramble.contains tag then
                 { st with is_scrambling := true }
               else st
    if tag = "script" ∧ st.suppress_scripts then st1
    else
      { st1 with
          html := st1.html ++ ["</" ++ tag ++ ">"]
          buf := st1.buf ++ ["<>"] }
  | .data s =>
    if st.is_script ∧ st.suppress_scripts then
      { st with html := st.html ++ ["<!-- script removed -->"]
                buf := st.buf ++ ["<>"] }
    else if st.is_scrambling then
      { st with buf := st.buf ++ [s] }
    else
      { st with html := st.html ++ [s], buf := st.buf ++ ["<>"] }
  | .entityref name =>
    { st with html := st.html ++ ["&" ++ name ++ ";"]
              buf := st.buf ++ ["<>"] }
  | .charref name =>
    { st with html := st.html ++ ["&#" ++ name ++ ";"]
              buf := st.buf ++ ["<>"] }
  | .comment s =>
    { st with html := st.html ++ ["<!--" ++ s ++ "-->"]
              buf := st.buf ++ ["<>"] }
  | .decl s =>
    let st1 := { st with html := st.html ++ ["<!" ++ s ++ ">"]
                         buf := st.buf ++ ["<>"] }
    if containsSeq "//DTD XHTML ".data s.data then
      { st1 with is_xhtml := true }
    else st1

/-- Feed a whole event stream (the tokenizer driving the handlers). -/
def processEvents (sh : List Char → List Char)
    (events : List Event) (st : HTMLScrambler) : HTMLScrambler :=
  events.foldl (processEvent sh) st

/-- The reassembly loop of `HTMLScrambler.scramble`: append each
(converted) text chunk, and after each chunk pop one markup-queue entry
while any remain (`if self._html: text.append(self._html.pop(0))`). -/
def reassemble (conv : String → String) :
    List (List Char) → List String → List String
  | [], _ => []
  | p :: ps, [] => conv (String.mk p) :: reassemble conv ps []
  | p :: ps, h :: hs => conv (String.mk p) :: h :: reassemble conv ps hs

/-- The scrambled text of `HTMLScrambler.scramble` before reassembly:
`Scrambler().feed("".join(self._buf))` followed by `scramble()`. -/
def scrambledText (sh : List Char → List Char) (st : HTMLScrambler) :
    Option String :=
  (Scrambler.scramble sh
    (Scrambler.feed (Scrambler.init true) (String.join st.buf))).map (·.1)

/-- `HTMLScrambler.scramble`: scramble the joined buffer, split on the
`"<>"` placeholder, convert each chunk when both encodings are set
(never the markup-queue entries), and interleave with the markup queue.
`none` models the uncaught `IndexError` of an impossible digit-buffer
underflow. -/
def scramble (sh : List Char → List Char) (se te : Option PyEncoding)
    (st : HTMLScrambler) : Option String :=
  (scrambledText sh st).map (fun s =>
    let conv : String → String :=
      match se, te with
      | some se, some te => convertChunk se te
      | _, _ => id
    String.join (reassemble conv (splitOnMarker s.data) st.html))

end HTMLScrambler

/-! ### Character-table lemmas -/

theorem pyIsAlpha_iff_mem {c : Char} : pyIsAlpha c = true ↔ c ∈ alphaChars := by
  simp [pyIsAlpha, List.contains, List.elem_eq_mem]

theorem pyIsDigit_iff_mem {c : Char} : pyIsDigit c = true ↔ c ∈ digitChars := by
  simp [pyIsDigit, List.contains, List.elem_eq_mem]

theorem pyIsUpper_iff_mem {c : Char} : pyIsUpper c = true ↔ c ∈ upChars := by
  simp [pyIsUpper, List.contains, List.elem_eq_mem]

theorem upChars_subset_alpha : ∀ c ∈ upChars, c ∈ alphaChars := by decide

theorem lowChars_subset_alpha : ∀ c ∈ lowChars, c ∈ alphaChars := by decide

theorem pyLower_of_not_alpha {c : Char} (h : c ∉ alphaChars) :
    pyLower c = c := by
  have : lowerPairs.find? (fun p => p.1 == c) = none := by
    rw [List.find?_eq_none]
    intro p hp hpc
    apply h
    apply upChars_subset_alpha
    have : p.1 = c := by simpa using hpc
    rw [← this]
    exact List.mem_map_of_mem _ hp
  simp [pyLower, this]

theorem pyUpper_of_not_alpha {c : Char} (h : c ∉ alphaChars) :
    pyUpper c = c := by
  have : lowerPairs.find? (fun p => p.2 == c) = none := by
    rw [List.find?_eq_none]
    intro p hp hpc
    apply h
    apply lowChars_subset_alpha
    have : p.2 = c := by simpa using hpc
    rw [← this]
    exact List.mem_map_of_mem _ hp
  simp [pyUpper, this]

theorem nfkdPairs_fst_alpha : ∀ p ∈ nfkdPairs, p.1 ∈ alphaChars := by decide

theorem nfkdFirst_of_not_alpha {c : Char} (h : c ∉ alphaChars) :
    nfkdFirst c = c := by
  have : nfkdPairs.find? (fun p => p.1 == c) = none := by
    rw [List.find?_eq_none]
    intro p hp hpc
    apply h
    have : p.1 = c := by simpa using hpc
    rw [← this]
    exact nfkdPairs_fst_alpha p hp
  simp [nfkdFirst, this]

/-- The two classification paths of the source
(`NFKD(c.lower())[0]` in `feed`, `NFKD(c)[0].lower()` in `_pop_letter`)
compute the same base character. -/
theorem nfkd_lower_comm (c : Char) :
    nfkdFirst (pyLower c) = pyLower (nfkdFirst c) := by
  by_cases h : c ∈ alphaChars
  · exact (by decide :
      ∀ c ∈ alphaChars, nfkdFirst (pyLower c) = pyLower (nfkdFirst c)) c h
  · rw [pyLower_of_not_alpha h, nfkdFirst_of_not_alpha h,
        pyLower_of_not_alpha h]

theorem pyLower_mem_lowChars : ∀ c ∈ alphaChars, pyLower c ∈ lowChars := by
  decide

theorem lowChars_pyLower_self : ∀ x ∈ lowChars, pyLower x = x := by decide

theorem lowChars_pyUpper_mem : ∀ x ∈ lowChars, pyUpper x ∈ upChars := by
  decide

theorem lowChars_pyLower_pyUpper : ∀ x ∈ lowChars, pyLower (pyUpper x) = x := by
  decide

theorem lowChars_not_upper : ∀ x ∈ lowChars, pyIsUpper x = false := by decide

theorem lowChars_pyUpper_upper :
    ∀ x ∈ lowChars, pyIsUpper (pyUpper x) = true := by decide

theorem lowChars_isAlpha : ∀ x ∈ lowChars, pyIsAlpha x = true := by decide

theorem lowChars_pyUpper_isAlpha :
    ∀ x ∈ lowChars, pyIsAlpha (pyUpper x) = true := by decide

theorem digitChars_pyLower_self : ∀ d ∈ digitChars, pyLower d = d := by decide

theorem digitChars_isDigit : ∀ d ∈ digitChars, pyIsDigit d = true := by decide

/-! ### Inversion lemmas for the bucket classification -/

theorem classF_litB {pres : Bool} {c : Char} :
    classF pres c = .litB ↔ (pyIsAlpha c = false ∧ pyIsDigit c = false) := by
  unfold classF
  by_cases ha : pyIsAlpha c <;> by_cases hd : pyIsDigit c <;>
    simp [ha, hd] <;> (repeat' split) <;> simp

theorem classF_digitB {pres : Bool} {c : Char} :
    classF pres c = .digitB ↔ (pyIsAlpha c = false ∧ pyIsDigit c = true) := by
  unfold classF
  by_cases ha : pyIsAlpha c <;> by_cases hd : pyIsDigit c <;>
    simp [ha, hd] <;> (repeat' split) <;> simp

theorem classF_isAlpha {pres : Bool} {c : Char} :
    pyIsAlpha c = true ↔
      (classF pres c = .consB ∨ classF pres c = .vowelB ∨
       classF pres c = .alphaB) := by
  unfold classF
  by_cases ha : pyIsAlpha c <;> simp [ha] <;> (repeat' split) <;> simp_all

theorem classF_consB_pres {c : Char} (h : classF false c = .consB) : False := by
  unfold classF at h
  (repeat' split at h) <;> simp_all

theorem classF_vowelB_pres {c : Char} (h : classF false c = .vowelB) :
    False := by
  unfold classF at h
  (repeat' split at h) <;> simp_all

/-! ### Branch-selection lemmas for `popLetter` -/

theorem classF_pres_true {c : Char} (ha : pyIsAlpha c = true) :
    classF true c =
      (if pyConsonants.contains (nfkdFirst (pyLower c)) then .consB
       else if pyVowels.contains (nfkdFirst (pyLower c)) then .vowelB
       else .alphaB) := by
  simp [classF, ha]

theorem classF_false_alpha {c : Char} (ha : pyIsAlpha c = true) :
    classF false c = .alphaB := by
  simp [classF, ha]

theorem classF_alpha_of_consB {pres : Bool} {c : Char}
    (h : classF pres c = .consB) : pyIsAlpha c = true :=
  (@classF_isAlpha pres c).2 (Or.inl h)

theorem classF_alpha_of_vowelB {pres : Bool} {c : Char}
    (h : classF pres c = .vowelB) : pyIsAlpha c = true :=
  (@classF_isAlpha pres c).2 (Or.inr (Or.inl h))

theorem classF_alpha_of_alphaB {pres : Bool} {c : Char}
    (h : classF pres c = .alphaB) : pyIsAlpha c = true :=
  (@classF_isAlpha pres c).2 (Or.inr (Or.inr h))

theorem contains_true_iff {c : Char} {l : List Char} :
    l.contains c = true ↔ c ∈ l := by
  simp [List.contains, List.elem_eq_mem]

theorem popLetter_consB {pres : Bool} {cons vowels alpha : List Char}
    {c : Char} (h : classF pres c = .consB) :
    Scrambler.popLetter pres cons vowels alpha c =
      (match cons with
       | [] => ("", [], vowels, alpha)
       | x :: xs => (String.singleton x, xs, vowels, alpha)) := by
  have hp : pres = true := by
    cases pres
    · exact absurd h classF_consB_pres
    · rfl
  subst hp
  have ha : pyIsAlpha c = true := classF_alpha_of_consB h
  have hcond : pyConsonants.contains (nfkdFirst (pyLower c)) = true := by
    by_contra hx
    rw [classF_pres_true ha, if_neg hx] at h
    split at h <;> exact absurd h (by decide)
  rw [nfkd_lower_comm] at hcond
  simp [Scrambler.popLetter, contains_true_iff.mp hcond]

theorem popLetter_vowelB {pres : Bool} {cons vowels alpha : List Char}
    {c : Char} (h : classF pres c = .vowelB) :
    Scrambler.popLetter pres cons vowels alpha c =
      (match vowels with
       | [] => ("", cons, [], alpha)
       | x :: xs => (String.singleton x, cons, xs, alpha)) := by
  have hp : pres = true := by
    cases pres
    · exact absurd h classF_vowelB_pres
    · rfl
  subst hp
  have ha : pyIsAlpha c = true := classF_alpha_of_vowelB h
  rw [classF_pres_true ha] at h
  have hc : ¬ pyConsonants.contains (nfkdFirst (pyLower c)) = true := by
    intro hx
    rw [if_pos hx] at h
    exact absurd h (by decide)
  rw [if_neg hc] at h
  have hv : pyVowels.contains (nfkdFirst (pyLower c)) = true := by
    by_contra hx
    rw [if_neg hx] at h
    exact absurd h (by decide)
  have hc2 : pyConsonants.contains (pyLower (nfkdFirst c)) = false := by
    rw [← nfkd_lower_comm]
    exact Bool.eq_false_iff.mpr hc
  rw [nfkd_lower_comm] at hv
  have hc3 : pyLower (nfkdFirst c) ∉ pyConsonants := by
    intro hx
    rw [contains_true_iff.mpr hx] at hc2
    cases hc2
  simp [Scrambler.popLetter, hc3, contains_true_iff.mp hv]

theorem popLetter_alphaB {pres : Bool} {cons vowels alpha : List Char}
    {c : Char} (h : classF pres c = .alphaB) (ha : pyIsAlpha c = true) :
    Scrambler.popLetter pres cons vowels alpha c =
      (match alpha with
       | [] => ("", cons, vowels, [])
       | x :: xs => (String.singleton x, cons, vowels, xs)) := by
  cases pres with
  | false => simp [Scrambler.popLetter]
  | true =>
    rw [classF_pres_true ha] at h
    have hc : ¬ pyConsonants.contains (nfkdFirst (pyLower c)) = true := by
      intro hx
      rw [if_pos hx] at h
      exact absurd h (by decide)
    rw [if_neg hc] at h
    have hv : ¬ pyVowels.contains (nfkdFirst (pyLower c)) = true := by
      intro hx
      rw [if_pos hx] at h
      exact absurd h (by decide)
    have hc2 : pyConsonants.contains (pyLower (nfkdFirst c)) = false := by
      rw [← nfkd_lower_comm]
      exact Bool.eq_false_iff.mpr hc
    have hv2 : pyVowels.contains (pyLower (nfkdFirst c)) = false := by
      rw [← nfkd_lower_comm]
      exact Bool.eq_false_iff.mpr hv
    have hc3 : pyLower (nfkdFirst c) ∉ pyConsonants := by
      intro hx
      rw [contains_true_iff.mpr hx] at hc2
      cases hc2
    have hv3 : pyLower (nfkdFirst c) ∉ pyVowels := by
      intro hx
      rw [contains_true_iff.mpr hx] at hv2
      cases hv2
    simp [Scrambler.popLetter, hc3, hv3]

/-! ### The master replay lemma -/

/-- Boolean test for membership in a bucket. -/
def classTest (pres : Bool) (k : Bucket) (c : Char) : Bool :=
  decide (classF pres c = k)

/-- Project, from parallel input/output character lists, the lowercased
output characters sitting at the positions the input classifies into
bucket `k`. -/
def sel (pres : Bool) (k : Bucket) (pairs : List (Char × Char)) : List Char :=
  pairs.filterMap
    (fun p => if classF pres p.1 = k then some (pyLower p.2) else none)

/-- Pointwise relation between an input character and the output
character replayed at its position: literals are fixed points, letter
positions receive letters with the original case, digit positions
receive digits. -/
def outPt (pres : Bool) (b o : Char) : Prop :=
  (classF pres b = .litB → o = b) ∧
  (pyIsAlpha b = true → pyIsAlpha o = true ∧ pyIsUpper o = pyIsUpper b) ∧
  (classF pres b = .digitB → pyIsDigit o = true)

/-- The master specification of the replay loop `Scrambler.flushGo`:
whenever each class buffer holds exactly as many characters as the
positional buffer has positions of that class (lowercase letters in the
letter buffers, digits in the digit buffer), the replay succeeds, its
output has one single-character piece per buffered position, literals
are fixed, case is preserved positionally, and the outputs at the
positions of each class, lowercased, are exactly that class's buffer in
order. -/
theorem flushGo_spec (pres : Bool) :
    ∀ (buf cons vowels alpha digits : List Char),
    cons.length = (buf.filter (classTest pres .consB)).length →
    vowels.length = (buf.filter (classTest pres .vowelB)).length →
    alpha.length = (buf.filter (classTest pres .alphaB)).length →
    digits.length = (buf.filter (classTest pres .digitB)).length →
    (∀ x ∈ cons, x ∈ lowChars) →
    (∀ x ∈ vowels, x ∈ lowChars) →
    (∀ x ∈ alpha, x ∈ lowChars) →
    (∀ x ∈ digits, x ∈ digitChars) →
    ∃ out : List Char,
      Scrambler.flushGo pres buf cons vowels alpha digits =
        some (out.map String.singleton) ∧
      out.length = buf.length ∧
      List.Forall₂ (outPt pres) buf out ∧
      sel pres .consB (buf.zip out) = cons ∧
      sel pres .vowelB (buf.zip out) = vowels ∧
      sel pres .alphaB (buf.zip out) = alpha ∧
      sel pres .digitB (buf.zip out) = digits := by
  intro buf
  induction buf with
  | nil =>
    intro cons vowels alpha digits hc hv ha hd _ _ _ _
    have hc0 : cons = [] := List.length_eq_zero.mp (by simpa using hc)
    have hv0 : vowels = [] := List.length_eq_zero.mp (by simpa using hv)
    have ha0 : alpha = [] := List.length_eq_zero.mp (by simpa using ha)
    have hd0 : digits = [] := List.length_eq_zero.mp (by simpa using hd)
    subst hc0 hv0 ha0 hd0
    exact ⟨[], rfl, rfl, List.Forall₂.nil, rfl, rfl, rfl, rfl⟩
  | cons c rest ih =>
    intro cons vowels alpha digits hc hv ha hd hmc hmv hma hmd
    cases hk : classF pres c with
    | consB =>
      have haAlpha : pyIsAlpha c = true := classF_alpha_of_consB hk
      simp only [List.filter_cons, classTest, hk] at hc hv ha hd
      simp at hc hv ha hd
      cases cons with
      | nil => simp at hc
      | cons x xs =>
        simp at hc
        have hx : x ∈ lowChars := hmc x (by simp)
        obtain ⟨out', heq, hlen, hfa, hsc, hsv, hsa, hsd⟩ :=
          ih xs vowels alpha digits hc hv ha hd
            (fun y hy => hmc y (List.mem_cons_of_mem _ hy)) hmv hma hmd
        refine ⟨(if pyIsUpper c then pyUpper x else x) :: out', ?_, ?_, ?_,
                ?_, ?_, ?_, ?_⟩
        · simp [Scrambler.flushGo, haAlpha, popLetter_consB hk, heq]
          cases hu : pyIsUpper c <;> simp [pyUpperStr, String.singleton, String.push]
        · simp [hlen]
        · refine List.Forall₂.cons ⟨?_, ?_, ?_⟩ hfa
          · intro h
            rw [hk] at h
            cases h
          · intro _
            constructor
            · cases hu : pyIsUpper c <;> simp
              · exact lowChars_isAlpha x hx
              · exact lowChars_pyUpper_isAlpha x hx
            · cases hu : pyIsUpper c <;> simp
              · exact lowChars_not_upper x hx
              · exact lowChars_pyUpper_upper x hx
          · intro h
            rw [hk] at h
            cases h
        · simp [sel, hk]
          constructor
          · cases hu : pyIsUpper c <;> simp
            · exact lowChars_pyLower_self x hx
            · exact lowChars_pyLower_pyUpper x hx
          · exact hsc
        · simpa [sel, hk] using hsv
        · simpa [sel, hk] using hsa
        · simpa [sel, hk] using hsd
    | vowelB =>
      have haAlpha : pyIsAlpha c = true := classF_alpha_of_vowelB hk
      simp only [List.filter_cons, classTest, hk] at hc hv ha hd
      simp at hc hv ha hd
      cases vowels with
      | nil => simp at hv
      | cons x xs =>
        simp at hv
        have hx : x ∈ lowChars := hmv x (by simp)
        obtain ⟨out', heq, hlen, hfa, hsc, hsv, hsa, hsd⟩ :=
          ih cons xs alpha digits hc hv ha hd
            hmc (fun y hy => hmv y (List.mem_cons_of_mem _ hy)) hma hmd
        refine ⟨(if pyIsUpper c then pyUpper x else x) :: out', ?_, ?_, ?_,
                ?_, ?_, ?_, ?_⟩
        · simp [Scrambler.flushGo, haAlpha, popLetter_vowelB hk, heq]
          cases hu : pyIsUpper c <;> simp [pyUpperStr, String.singleton, String.push]
        · simp [hlen]
        · refine List.Forall₂.cons ⟨?_, ?_, ?_⟩ hfa
          · intro h
            rw [hk] at h
            cases h
          · intro _
            constructor
            · cases hu : pyIsUpper c <;> simp
              · exact lowChars_isAlpha x hx
              · exact lowChars_pyUpper_isAlpha x hx
            · cases hu : pyIsUpper c <;> simp
              · exact lowChars_not_upper x hx
              · exact lowChars_pyUpper_upper x hx
          · intro h
            rw [hk] at h
            cases h
        · simpa [sel, hk] using hsc
        · simp [sel, hk]
          constructor
          · cases hu : pyIsUpper c <;> simp
            · exact lowChars_pyLower_self x hx
            · exact lowChars_pyLower_pyUpper x hx
          · exact hsv
        · simpa [sel, hk] using hsa
        · simpa [sel, hk] using hsd
    | alphaB =>
      have haAlpha : pyIsAlpha c = true := classF_alpha_of_alphaB hk
      simp only [List.filter_cons, classTest, hk] at hc hv ha hd
      simp at hc hv ha hd
      cases alpha with
      | nil => simp at ha
      | cons x xs =>
        simp at ha
        have hx : x ∈ lowChars := hma x (by simp)
        obtain ⟨out', heq, hlen, hfa, hsc, hsv, hsa, hsd⟩ :=
          ih cons vowels xs digits hc hv ha hd
            hmc hmv (fun y hy => hma y (List.mem_cons_of_mem _ hy)) hmd
        refine ⟨(if pyIsUpper c then pyUpper x else x) :: out', ?_, ?_, ?_,
                ?_, ?_, ?_, ?_⟩
        · simp [Scrambler.flushGo, haAlpha, popLetter_alphaB hk haAlpha, heq]
          cases hu : pyIsUpper c <;> simp [pyUpperStr, String.singleton, String.push]
        · simp [hlen]
        · refine List.Forall₂.cons ⟨?_, ?_, ?_⟩ hfa
          · intro h
            rw [hk] at h
            cases h
          · intro _
            constructor
            · cases hu : pyIsUpper c <;> simp
              · exact lowChars_isAlpha x hx
              · exact lowChars_pyUpper_isAlpha x hx
            · cases hu : pyIsUpper c <;> simp
              · exact lowChars_not_upper x hx
              · exact lowChars_pyUpper_upper x hx
          · intro h
            rw [hk] at h
            cases h
        · simpa [sel, hk] using hsc
        · simpa [sel, hk] using hsv
        · simp [sel, hk]
          constructor
          · cases hu : pyIsUpper c <;> simp
            · exact lowChars_pyLower_self x hx
            · exact lowChars_pyLower_pyUpper x hx
          · exact hsa
        · simpa [sel, hk] using hsd
    | digitB =>
      have hnd := classF_digitB.mp hk
      simp only [List.filter_cons, classTest, hk] at hc hv ha hd
      simp at hc hv ha hd
      cases digits with
      | nil => simp at hd
      | cons d ds =>
        simp at hd
        have hdx : d ∈ digitChars := hmd d (by simp)
        obtain ⟨out', heq, hlen, hfa, hsc, hsv, hsa, hsd⟩ :=
          ih cons vowels alpha ds hc hv ha hd
            hmc hmv hma (fun y hy => hmd y (List.mem_cons_of_mem _ hy))
        refine ⟨d :: out', ?_, ?_, ?_, ?_, ?_, ?_, ?_⟩
        · simp [Scrambler.flushGo, hnd.1, hnd.2, heq]
        · simp [hlen]
        · refine List.Forall₂.cons ⟨?_, ?_, ?_⟩ hfa
          · intro h
            rw [hk] at h
            cases h
          · intro h
            rw [hnd.1] at h
            cases h
          · intro _
            exact digitChars_isDigit d hdx
        · simpa [sel, hk] using hsc
        · simpa [sel, hk] using hsv
        · simpa [sel, hk] using hsa
        · simp [sel, hk]
          constructor
          · exact digitChars_pyLower_self d hdx
          · exact hsd
    | litB =>
      have hnl := classF_litB.mp hk
      simp only [List.filter_cons, classTest, hk] at hc hv ha hd
      simp at hc hv ha hd
      obtain ⟨out', heq, hlen, hfa, hsc, hsv, hsa, hsd⟩ :=
        ih cons vowels alpha digits hc hv ha hd hmc hmv hma hmd
      refine ⟨c :: out', ?_, ?_, ?_, ?_, ?_, ?_, ?_⟩
      · simp [Scrambler.flushGo, hnl.1, hnl.2, heq]
      · simp [hlen]
      · refine List.Forall₂.cons ⟨?_, ?_, ?_⟩ hfa
        · intro _
          rfl
        · intro h
          rw [hnl.1] at h
          cases h
        · intro h
          rw [hk] at h
          cases h
      · simpa [sel, hk] using hsc
      · simpa [sel, hk] using hsv
      · simpa [sel, hk] using hsa
      · simpa [sel, hk] using hsd

/-! ### Specification of `feed` -/

theorem feedChar_spec (st : Scrambler) (c : Char) :
    Scrambler.feedChar st c =
      { st with
          buf := st.buf ++ [c]
          cons := st.cons ++
            (if classF st.preserve c = .consB then [pyLower c] else [])
          vowels := st.vowels ++
            (if classF st.preserve c = .vowelB then [pyLower c] else [])
          alpha := st.alpha ++
            (if classF st.preserve c = .alphaB then [pyLower c] else [])
          digits := st.digits ++
            (if classF st.preserve c = .digitB then [c] else []) } := by
  rcases st with ⟨buf, alpha, cons, vowels, digits, pres⟩
  unfold Scrambler.feedChar classF
  by_cases ha : pyIsAlpha c <;> by_cases hd : pyIsDigit c <;>
    simp [ha, hd] <;> (repeat' split) <;> simp_all

theorem feed_go_spec (pres : Bool) (l : List Char) :
    ∀ st : Scrambler, st.preserve = pres →
      l.foldl Scrambler.feedChar st =
        { buf := st.buf ++ l
          cons := st.cons ++ (l.filter (classTest pres .consB)).map pyLower
          vowels := st.vowels ++ (l.filter (classTest pres .vowelB)).map pyLower
          alpha := st.alpha ++ (l.filter (classTest pres .alphaB)).map pyLower
          digits := st.digits ++ l.filter (classTest pres .digitB)
          preserve := pres } := by
  induction l with
  | nil =>
    intro st h
    rcases st
    simp_all
  | cons c cl ih =>
    intro st hpres
    rw [List.foldl_cons, ih _ (by rw [feedChar_spec]; exact hpres),
        feedChar_spec, hpres]
    cases hk : classF pres c <;>
      simp [List.filter_cons, classTest, hk]

/-- `Scrambler.feed` on a fresh scrambler: the positional buffer is the
text itself, and each class buffer is exactly the lowercased subsequence
of that class. -/
theorem feed_init_spec (pres : Bool) (s : String) :
    Scrambler.feed (Scrambler.init pres) s =
      { buf := s.data
        cons := (s.data.filter (classTest pres .consB)).map pyLower
        vowels := (s.data.filter (classTest pres .vowelB)).map pyLower
        alpha := (s.data.filter (classTest pres .alphaB)).map pyLower
        digits := s.data.filter (classTest pres .digitB)
        preserve := pres } := by
  have := feed_go_spec pres s.data (Scrambler.init pres) rfl
  simpa [Scrambler.feed, Scrambler.init] using this

/-! ### Joining the replayed pieces -/

theorem string_data_append (a b : String) :
    (a ++ b).data = a.data ++ b.data := rfl

theorem join_go_data (L : List String) :
    ∀ acc : String,
      (L.foldl (· ++ ·) acc).data = acc.data ++ (L.map String.data).flatten := by
  induction L with
  | nil => intro acc; simp
  | cons s L ih =>
    intro acc
    simp [List.foldl_cons, ih, string_data_append]

theorem join_data (L : List String) :
    (String.join L).data = (L.map String.data).flatten := by
  simpa [String.join] using join_go_data L ""

theorem join_map_singleton (l : List Char) :
    (String.join (l.map String.singleton)).data = l := by
  rw [join_data]
  induction l with
  | nil => rfl
  | cons c cl ih =>
    simpa [String.singleton, String.push] using ih

/-- The bucket contents after feeding `s` to a fresh scrambler. -/
def fedBucket (pres : Bool) (k : Bucket) (s : String) : List Char :=
  if k = .digitB then s.data.filter (classTest pres k)
  else (s.data.filter (classTest pres k)).map pyLower

/-- Combined specification of `feed` + `scramble` on a fresh scrambler:
for any shuffle that permutes its argument, scrambling succeeds, output
length equals input length, literals and case are preserved positionally
(`outPt`), and the output characters at each class's positions are
exactly that class's shuffled buffer. -/
theorem scramble_spec (pres : Bool) (s : String)
    (sh : List Char → List Char) (hsh : ∀ l, (sh l).Perm l) :
    ∃ out : List Char,
      Scrambler.scramble sh (Scrambler.feed (Scrambler.init pres) s) =
        some (String.mk out, ⟨[], [], [], [], [], pres⟩) ∧
      out.length = s.data.length ∧
      List.Forall₂ (outPt pres) s.data out ∧
      sel pres .consB (s.data.zip out) =
        (if pres then sh (fedBucket pres .consB s)
         else fedBucket pres .consB s) ∧
      sel pres .vowelB (s.data.zip out) =
        (if pres then sh (fedBucket pres .vowelB s)
         else fedBucket pres .vowelB s) ∧
      sel pres .alphaB (s.data.zip out) = sh (fedBucket pres .alphaB s) ∧
      sel pres .digitB (s.data.zip out) = sh (fedBucket pres .digitB s) := by
  have hfeed := feed_init_spec pres s
  set fedC := (s.data.filter (classTest pres .consB)).map pyLower with hfedC
  set fedV := (s.data.filter (classTest pres .vowelB)).map pyLower with hfedV
  set fedA := (s.data.filter (classTest pres .alphaB)).map pyLower with hfedA
  set fedD := s.data.filter (classTest pres .digitB) with hfedD
  have memC : ∀ x ∈ (if pres then sh fedC else fedC), x ∈ lowChars := by
    intro x hx
    have hx' : x ∈ fedC := by
      cases pres
      · simpa using hx
      · exact ((hsh fedC).mem_iff).mp (by simpa using hx)
    obtain ⟨c', hc', rfl⟩ := List.mem_map.mp hx'
    have h2 : classF pres c' = .consB := by
      simpa [classTest] using (List.mem_filter.mp hc').2
    exact pyLower_mem_lowChars c'
      (pyIsAlpha_iff_mem.mp (classF_alpha_of_consB h2))
  have memV : ∀ x ∈ (if pres then sh fedV else fedV), x ∈ lowChars := by
    intro x hx
    have hx' : x ∈ fedV := by
      cases pres
      · simpa using hx
      · exact ((hsh fedV).mem_iff).mp (by simpa using hx)
    obtain ⟨c', hc', rfl⟩ := List.mem_map.mp hx'
    have h2 : classF pres c' = .vowelB := by
      simpa [classTest] using (List.mem_filter.mp hc').2
    exact pyLower_mem_lowChars c'
      (pyIsAlpha_iff_mem.mp (classF_alpha_of_vowelB h2))
  have memA : ∀ x ∈ sh fedA, x ∈ lowChars := by
    intro x hx
    have hx' : x ∈ fedA := ((hsh fedA).mem_iff).mp hx
    obtain ⟨c', hc', rfl⟩ := List.mem_map.mp hx'
    have h2 : classF pres c' = .alphaB := by
      simpa [classTest] using (List.mem_filter.mp hc').2
    exact pyLower_mem_lowChars c'
      (pyIsAlpha_iff_mem.mp (classF_alpha_of_alphaB h2))
  have memD : ∀ x ∈ sh fedD, x ∈ digitChars := by
    intro x hx
    have hx' : x ∈ fedD := ((hsh fedD).mem_iff).mp hx
    have h2 : classF pres x = .digitB := by
      simpa [classTest] using (List.mem_filter.mp hx').2
    exact pyIsDigit_iff_mem.mp (classF_digitB.mp h2).2
  have lenC : (if pres then sh fedC else fedC).length =
      (s.data.filter (classTest pres .consB)).length := by
    cases pres
    · simp [hfedC]
    · simp [(hsh fedC).length_eq, hfedC]
  have lenV : (if pres then sh fedV else fedV).length =
      (s.data.filter (classTest pres .vowelB)).length := by
    cases pres
    · simp [hfedV]
    · simp [(hsh fedV).length_eq, hfedV]
  have lenA : (sh fedA).length =
      (s.data.filter (classTest pres .alphaB)).length := by
    simp [(hsh fedA).length_eq, hfedA]
  have lenD : (sh fedD).length =
      (s.data.filter (classTest pres .digitB)).length := by
    simp [(hsh fedD).length_eq, hfedD]
  obtain ⟨out, heq, hlen, hfa, hsc, hsv, hsa, hsd⟩ :=
    flushGo_spec pres s.data
      (if pres then sh fedC else fedC)
      (if pres then sh fedV else fedV)
      (sh fedA) (sh fedD)
      lenC lenV lenA lenD memC memV memA memD
  have hjoin : String.join (out.map String.singleton) = String.mk out := by
    calc String.join (out.map String.singleton)
        = String.mk ((String.join (out.map String.singleton)).data) := rfl
      _ = String.mk out := by rw [join_map_singleton]
  refine ⟨out, ?_, by simpa using hlen, hfa, ?_, ?_, by simpa [fedBucket] using hsa,
          by simpa [fedBucket] using hsd⟩
  · rw [Scrambler.scramble, hfeed]
    simp only [Scrambler.flush, Scrambler.clear]
    rw [heq]
    simp [hjoin]
  · simpa [fedBucket] using hsc
  · simpa [fedBucket] using hsv

/-! ### Claim C1 -/

/-- C1: for every input text `T`, feeding `T` to a fresh `Scrambler` and
calling `scramble()` returns a string whose length equals `len(T)` —
for any outcome `sh` of the random shuffles. -/
theorem C1_length_invariance (T : String) (sh : List Char → List Char)
    (hsh : ∀ l, (sh l).Perm l) :
    ∃ out st',
      Scrambler.scramble sh (Scrambler.feed (Scrambler.init true) T) =
        some (out, st') ∧
      out.length = T.length := by
  obtain ⟨out, heq, hlen, -⟩ := scramble_spec true T sh hsh
  exact ⟨String.mk out, _, heq, hlen⟩

/-- Witness for C1 at the concrete input `"Ab3!"` with the identity
shuffle. -/
theorem C1_length_invariance_witness :
    (∀ l : List Char, ((fun x => x) l).Perm l) ∧
    ∃ out st',
      Scrambler.scramble (fun x => x)
        (Scrambler.feed (Scrambler.init true) "Ab3!") =
        some (out, st') ∧
      out.length = ("Ab3!" : String).length :=
  ⟨fun l => List.Perm.refl l,
   C1_length_invariance "Ab3!" (fun x => x) (fun l => List.Perm.refl l)⟩

/-! ### Claim C7 -/

/-- C7: scrambling is a permutation, not a resample: for every text `T`
and every shuffle outcome, the output has the length of `T`, the
lowercased output characters at the positions of each class are a
permutation of that class's fed buffer (the lowercased input characters
of that class), literal positions are fixed points, and every letter
position keeps its original case. -/
theorem C7_class_multiset_invariance (T : String)
    (sh : List Char → List Char) (hsh : ∀ l, (sh l).Perm l) :
    ∃ out st',
      Scrambler.scramble sh (Scrambler.feed (Scrambler.init true) T) =
        some (out, st') ∧
      out.length = T.length ∧
      (∀ k : Bucket, k ≠ .litB →
        (sel true k (T.data.zip out.data)).Perm (fedBucket true k T)) ∧
      List.Forall₂
        (fun b o => (classF true b = .litB → o = b) ∧
          (pyIsAlpha b = true → pyIsUpper o = pyIsUpper b))
        T.data out.data := by
  obtain ⟨out, heq, hlen, hfa, hsc, hsv, hsa, hsd⟩ :=
    scramble_spec true T sh hsh
  refine ⟨String.mk out, _, heq, hlen, ?_, ?_⟩
  · intro k hk
    cases k with
    | consB => rw [hsc]; simpa using hsh _
    | vowelB => rw [hsv]; simpa using hsh _
    | alphaB => rw [hsa]; exact hsh _
    | digitB => rw [hsd]; exact hsh _
    | litB => exact absurd rfl hk
  · exact List.Forall₂.imp (fun a b h => ⟨h.1, fun ha => (h.2.1 ha).2⟩) hfa

/-- Witness for C7 at the concrete input `"Ba9."` with the identity
shuffle. -/
theorem C7_class_multiset_invariance_witness :
    (∀ l : List Char, ((fun x => x) l).Perm l) ∧
    ∃ out st',
      Scrambler.scramble (fun x => x)
        (Scrambler.feed (Scrambler.init true) "Ba9.") =
        some (out, st') ∧
      out.length = ("Ba9." : String).length ∧
      (∀ k : Bucket, k ≠ .litB →
        (sel true k (("Ba9." : String).data.zip out.data)).Perm
          (fedBucket true k "Ba9.")) ∧
      List.Forall₂
        (fun b o => (classF true b = .litB → o = b) ∧
          (pyIsAlpha b = true → pyIsUpper o = pyIsUpper b))
        ("Ba9." : String).data out.data :=
  ⟨fun l => List.Perm.refl l,
   C7_class_multiset_invariance "Ba9." (fun x => x) (fun l => List.Perm.refl l)⟩

/-! ### Claim C3 -/

theorem popLetter_empty (pres : Bool) (c : Char) :
    Scrambler.popLetter pres [] [] [] c = ("", [], [], []) := by
  cases pres <;> simp only [Scrambler.popLetter] <;> (repeat' split) <;> rfl

/-- C3 counterexample: replaying the letter `b` from a state whose class
buffers are all empty does NOT abort: `Scrambler.flush` returns the
empty string normally.  The Python source catches the `IndexError` in
`_pop_letter` and returns `""`, silently dropping the character — there
is no fatal assertion. -/
theorem C3_counterexample :
    Scrambler.flush ⟨['b'], [], [], [], [], true⟩ =
      some ("", ⟨[], [], [], [], [], true⟩) := by decide

/-- C3 amended: popping a letter from empty class buffers silently
yields the empty string (the letter is dropped from the replayed
output, shortening it); the fault is masked, not fatal. -/
theorem C3_amended :
    (∀ (pres : Bool) (c : Char),
      Scrambler.popLetter pres [] [] [] c = ("", [], [], [])) ∧
    (∀ (pres : Bool) (c : Char), pyIsAlpha c = true →
      Scrambler.flush ⟨[c], [], [], [], [], pres⟩ =
        some ("", ⟨[], [], [], [], [], pres⟩)) := by
  refine ⟨popLetter_empty, ?_⟩
  intro pres c ha
  have h1 : Scrambler.flushGo pres [c] [] [] [] [] = some [""] := by
    unfold Scrambler.flushGo
    rw [if_pos ha, popLetter_empty]
    simp [Scrambler.flushGo, pyUpperStr]
  unfold Scrambler.flush
  rw [h1]
  rfl

/-- Witness for C3's amended statement at `pres = true`, `c = 'b'`. -/
theorem C3_amended_witness :
    Scrambler.popLetter true [] [] [] 'b' = ("", [], [], []) ∧
    (pyIsAlpha 'b' = true ∧
      Scrambler.flush ⟨['b'], [], [], [], [], true⟩ =
        some ("", ⟨[], [], [], [], [], true⟩)) :=
  ⟨C3_amended.1 true 'b', by decide, C3_amended.2 true 'b' (by decide)⟩

/-! ### Claims C10 and C5 -/

theorem processEvent_fixed_fields (sh : List Char → List Char)
    (st : HTMLScrambler) (e : Event) :
    (HTMLScrambler.processEvent sh st e).suppress_scripts =
        st.suppress_scripts ∧
    (HTMLScrambler.processEvent sh st e).base_url = st.base_url ∧
    (HTMLScrambler.processEvent sh st e).is_honeypot = st.is_honeypot := by
  cases e <;> simp [HTMLScrambler.processEvent] <;>
    (repeat' split) <;> simp

theorem processEvents_suppress (sh : List Char → List Char)
    (events : List Event) :
    ∀ st : HTMLScrambler,
      (HTMLScrambler.processEvents sh events st).suppress_scripts =
        st.suppress_scripts := by
  induction events with
  | nil => intro st; rfl
  | cons e es ih =>
    intro st
    show (HTMLScrambler.processEvents sh es
      (HTMLScrambler.processEvent sh st e)).suppress_scripts = _
    rw [ih, (processEvent_fixed_fields sh st e).1]

/-- C10: an `HTMLScrambler` constructed with `is_honeypot=True` has
script suppression enabled regardless of the `suppress_scripts`
parameter (`suppress_scripts or is_honeypot` in `__init__`), and no
event handler ever changes it, so it holds for the lifetime of the
instance. -/
theorem C10_honeypot_suppress (base : String) (sp : Bool)
    (sh : List Char → List Char) (events : List Event) :
    (HTMLScrambler.processEvents sh events
      (HTMLScrambler.init base true sp)).suppress_scripts = true := by
  rw [processEvents_suppress]
  simp [HTMLScrambler.init]

/-- C5 counterexample: a `script` start tag with suppression off
(`suppress_scripts=False`, honeypot off) leaves `is_scrambling` true:
`tag == "script"` is caught by the first branch of `handle_starttag`,
so the `_DONT_SCRAMBLE` branch that would clear `is_scrambling` never
runs for scripts, contradicting the claimed `is_scrambling=false`
transition for non-suppressed scripts.  (Its character data is then
scrambled, not emitted unscrambled.) -/
theorem C5_counterexample :
    (HTMLScrambler.processEvent (fun l => l)
      (HTMLScrambler.init "u" false false)
      (Event.starttag "script" [])).is_scrambling = true ∧
    (HTMLScrambler.processEvent (fun l => l)
      (HTMLScrambler.init "u" false false)
      (Event.starttag "script" [])).is_script = true := by decide

/-- C5 amended: only `style` start/end tags toggle `is_scrambling`
(start sets it false, end restores true); `script` tags toggle
`is_script` instead and always leave `is_scrambling` unchanged, whether
or not scripts are suppressed. -/
theorem C5_amended (sh : List Char → List Char) (st : HTMLScrambler)
    (attrs : List (String × Option String)) :
    (HTMLScrambler.processEvent sh st
        (Event.starttag "style" attrs)).is_scrambling = false ∧
    (HTMLScrambler.processEvent sh st
        (Event.endtag "style")).is_scrambling = true ∧
    (HTMLScrambler.processEvent sh st
        (Event.starttag "script" attrs)).is_scrambling = st.is_scrambling ∧
    (HTMLScrambler.processEvent sh st
        (Event.endtag "script")).is_scrambling = st.is_scrambling ∧
    (HTMLScrambler.processEvent sh st
        (Event.starttag "script" attrs)).is_script = true ∧
    (HTMLScrambler.processEvent sh st
        (Event.endtag "script")).is_script = false := by
  refine ⟨?_, ?_, ?_, ?_, ?_, ?_⟩ <;>
    simp [HTMLScrambler.processEvent, dontScramble] <;>
    (repeat' split) <;> simp_all

/-! ### Claim C4 -/

/-- C4 counterexample: the rewritten `href` value for
`<a href="/page">` with base `https://example.com/` and honeypot off is
not the claimed fully-percent-encoded form with `%2F` slashes. -/
theorem C4_counterexample :
    HTMLScrambler.processAttrValue (fun l => l) "https://example.com/"
      false "a" "href" "/page" ≠
      "?url=https%3A%2F%2Fexample.com%2Fpage" := by decide

/-- C4 amended: the rewritten tag is
`<a href="?url=https%3A//example.com/page">`: the colon is
percent-encoded but the slashes are left unencoded, because
`urllib.parse.quote`'s default safe set contains `/`. -/
theorem C4_amended :
    HTMLScrambler.buildStarttag (fun l => l) "https://example.com/"
      false false "a" [("href", some "/page")] false =
      "<a href=\"?url=https%3A//example.com/page\">" := by decide

/-! ### Claim C8 -/

theorem forall₂_mem_right {α β : Type} {R : α → β → Prop} :
    ∀ {l1 : List α} {l2 : List β}, List.Forall₂ R l1 l2 →
      ∀ b ∈ l2, ∃ a ∈ l1, R a b := by
  intro l1 l2 h
  induction h with
  | nil => intro b hb; cases hb
  | cons hR _ ih =>
    intro b hb
    rcases List.mem_cons.mp hb with rfl | hb2
    · exact ⟨_, List.mem_cons_self _ _, hR⟩
    · obtain ⟨a, ha, har⟩ := ih b hb2
      exact ⟨a, List.mem_cons_of_mem _ ha, har⟩

theorem alphaChars_escChar : ∀ c ∈ alphaChars, escChar c = [c] := by decide

theorem digitChars_escChar : ∀ c ∈ digitChars, escChar c = [c] := by decide

theorem escData_eq_self :
    ∀ l : List Char, (∀ c ∈ l, escChar c = [c]) → escData l = l := by
  intro l
  induction l with
  | nil => intro _; rfl
  | cons c cl ih =>
    intro h
    show escChar c ++ escData cl = c :: cl
    rw [h c (by simp), ih (fun d hd => h d (List.mem_cons_of_mem _ hd))]
    rfl

/-- The five characters `html.escape(s, quote=True)` expands. -/
def escTargets : List Char := ['&', '<', '>', '"', Char.ofNat 39]

theorem escChar_of_not_target {c : Char} (h : c ∉ escTargets) :
    escChar c = [c] := by
  simp [escTargets] at h
  simp [escChar, h.1, h.2.1, h.2.2.1, h.2.2.2.1, h.2.2.2.2]

/-- C8 counterexample: the alt value `a&b` scrambles to a same-length
string, but `html.escape` then expands the ampersand: the emitted
attribute value is `a&amp;b`, of length 7 rather than 3. -/
theorem C8_counterexample :
    HTMLScrambler.processAttrValue (fun l => l) "u" false "img" "alt"
      "a&b" = "a&amp;b" ∧
    ("a&amp;b" : String).length ≠ ("a&b" : String).length := by decide

/-- C8 amended: the scrambled value itself always has the length of the
original, and the emitted attribute value keeps that length exactly
when the original contains none of the five HTML-escapable characters
(`&`, `<`, `>`, `"`, the apostrophe); an escapable character survives
scrambling as a literal and is then expanded by `html.escape`. -/
theorem C8_amended (sh : List Char → List Char)
    (hsh : ∀ l, (sh l).Perm l) (base : String) (hp : Bool)
    (tag attr value : String)
    (hattr : attr = "alt" ∨ attr = "placeholder" ∨ attr = "title" ∨
             attr = "value")
    (hval : ∀ c ∈ value.data, c ∉ escTargets) :
    (HTMLScrambler.processAttrValue sh base hp tag attr value).length =
      value.length := by
  obtain ⟨out, heq, hlen, hfa, -⟩ := scramble_spec true value sh hsh
  have hscr : HTMLScrambler.attrScramble sh value = String.mk out := by
    simp [HTMLScrambler.attrScramble, heq]
  have hout : ∀ o ∈ out, escChar o = [o] := by
    intro o ho
    obtain ⟨a, ha, hpt⟩ := forall₂_mem_right hfa o ho
    cases hk : classF true a with
    | consB =>
      exact alphaChars_escChar o
        (pyIsAlpha_iff_mem.mp
          (hpt.2.1 (classF_alpha_of_consB hk)).1)
    | vowelB =>
      exact alphaChars_escChar o
        (pyIsAlpha_iff_mem.mp
          (hpt.2.1 (classF_alpha_of_vowelB hk)).1)
    | alphaB =>
      exact alphaChars_escChar o
        (pyIsAlpha_iff_mem.mp
          (hpt.2.1 (classF_alpha_of_alphaB hk)).1)
    | digitB =>
      exact digitChars_escChar o
        (pyIsDigit_iff_mem.mp (hpt.2.2 hk))
    | litB =>
      rw [hpt.1 hk]
      exact escChar_of_not_target (hval a ha)
  have hesc : htmlEscape (String.mk out) = String.mk out := by
    show String.mk (escData out) = String.mk out
    rw [escData_eq_self out hout]
  rcases hattr with rfl | rfl | rfl | rfl <;>
    · simp only [HTMLScrambler.processAttrValue]
      rw [if_neg (by simp), if_neg (by simp), if_neg (by simp),
          if_pos (by simp)]
      rw [hscr, hesc]
      exact hlen

/-- Witness for C8's amended statement: `alt="cat"` with the identity
shuffle keeps length 3. -/
theorem C8_amended_witness :
    (∀ l : List Char, ((fun x => x) l).Perm l) ∧
    (HTMLScrambler.processAttrValue (fun x => x) "u" false "img" "alt"
        "cat").length = ("cat" : String).length :=
  ⟨fun l => List.Perm.refl l,
   C8_amended (fun x => x) (fun l => List.Perm.refl l) "u" false "img"
     "alt" "cat" (Or.inl rfl) (by decide)⟩

/-! ### Claim C6 -/

theorem encodeXmlcr_append (te : PyEncoding) (l1 l2 : List Char) :
    encodeXmlcr te (l1 ++ l2) = encodeXmlcr te l1 ++ encodeXmlcr te l2 := by
  induction l1 with
  | nil => rfl
  | cons c cl ih =>
    show (match te.encChar c with
          | some bs => bs
          | none => charrefBytes c) ++ encodeXmlcr te (cl ++ l2) = _
    rw [ih]
    simp [encodeXmlcr, List.append_assoc]

theorem filterMap_id_of_some {α : Type} {f : α → Option α} :
    ∀ l : List α, (∀ a ∈ l, f a = some a) → List.filterMap f l = l := by
  intro l
  induction l with
  | nil => intro _; rfl
  | cons a al ih =>
    intro h
    rw [List.filterMap_cons, h a (by simp),
        ih (fun b hb => h b (List.mem_cons_of_mem _ hb))]

theorem mem_reassemble (conv : String → String) :
    ∀ (pieces : List (List Char)) (html : List String),
      html.length < pieces.length →
      ∀ h ∈ html, h ∈ HTMLScrambler.reassemble conv pieces html := by
  intro pieces
  induction pieces with
  | nil =>
    intro html hlt h hh
    simp at hlt
  | cons p ps ih =>
    intro html hlt h hh
    cases html with
    | nil => cases hh
    | cons h0 hs =>
      rcases List.mem_cons.mp hh with rfl | hh2
      · show h ∈ _ :: h :: _
        simp
      · show h ∈ _ :: h0 :: HTMLScrambler.reassemble conv ps hs
        have : h ∈ HTMLScrambler.reassemble conv ps hs :=
          ih hs (by simpa using Nat.lt_of_succ_lt_succ hlt) h hh2
        simp [this]

theorem join_mem_split (s : String) :
    ∀ L : List String, s ∈ L →
      ∃ pre post, (String.join L).data = pre ++ s.data ++ post := by
  intro L
  induction L with
  | nil => intro h; cases h
  | cons t ts ih =>
    intro h
    rcases List.mem_cons.mp h with rfl | h2
    · exact ⟨[], (ts.map String.data).flatten, by simp [join_data]⟩
    · obtain ⟨pre, post, hsplit⟩ := ih h2
      refine ⟨t.data ++ pre, post, ?_⟩
      rw [join_data] at hsplit ⊢
      simp only [List.map_cons, List.flatten_cons]
      rw [hsplit]
      simp [List.append_assoc]

/-- C6: (a) when both encodings are set, a chunk character the target
encoding cannot natively represent survives the conversion as its XML
character reference — it appears verbatim in the converted chunk and is
never dropped, and the conversion is a total function (no abort);
(b) the conversion is applied only to the scrambled text chunks: every
markup-queue entry appears verbatim in the reassembled document, for
ANY chunk conversion whatsoever. -/
theorem C6_unencodable_charref :
    (∀ (se te : PyEncoding) (s : String) (c : Char),
      c ∈ s.data → te.encChar c = none →
      (∀ d ∈ (charrefStr c).data, se.decByte d.toNat = some d) →
      ∃ pre post, (convertChunk se te s).data =
        pre ++ (charrefStr c).data ++ post) ∧
    (∀ (conv : String → String) (pieces : List (List Char))
        (html : List String), html.length < pieces.length →
      ∀ h ∈ html, ∃ pre post,
        (String.join (HTMLScrambler.reassemble conv pieces html)).data =
          pre ++ h.data ++ post) := by
  constructor
  · intro se te s c hc henc hdec
    obtain ⟨l1, l2, hsplit⟩ := List.append_of_mem hc
    have hmid : decodeIgn se (charrefBytes c) = (charrefStr c).data := by
      unfold decodeIgn charrefBytes
      rw [List.filterMap_map]
      exact filterMap_id_of_some _ hdec
    refine ⟨decodeIgn se (encodeXmlcr te l1),
            decodeIgn se (encodeXmlcr te l2), ?_⟩
    show decodeIgn se (encodeXmlcr te s.data) = _
    rw [hsplit, encodeXmlcr_append]
    have hcons : encodeXmlcr te (c :: l2) =
        charrefBytes c ++ encodeXmlcr te l2 := by
      show (match te.encChar c with
            | some bs => bs
            | none => charrefBytes c) ++ encodeXmlcr te l2 = _
      rw [henc]
    rw [hcons]
    unfold decodeIgn
    rw [List.filterMap_append, List.filterMap_append]
    rw [show List.filterMap se.decByte (charrefBytes c) =
          (charrefStr c).data from hmid]
    rw [List.append_assoc]
  · intro conv pieces html hlt h hh
    exact join_mem_split h _ (mem_reassemble conv pieces html hlt h hh)

/-- A seven-bit test codec for the C6 witness: encodes and decodes exactly
the ASCII range. -/
def asciiCodec : PyEncoding :=
  ⟨fun c => if c.toNat < 128 then some [c.toNat] else none,
   fun b => if b < 128 then some (Char.ofNat b) else none⟩

/-- Witness for C6: converting the chunk `"é"` with ASCII as the target
encoding yields the character reference `&#233;`, and a markup entry
`<b>` survives reassembly verbatim under that conversion. -/
theorem C6_unencodable_charref_witness :
    (('é' ∈ ("é" : String).data) ∧ asciiCodec.encChar 'é' = none ∧
      (∀ d ∈ (charrefStr 'é').data,
        asciiCodec.decByte d.toNat = some d)) ∧
    (∃ pre post, (convertChunk asciiCodec asciiCodec "é").data =
      pre ++ (charrefStr 'é').data ++ post) ∧
    (∃ pre post,
      (String.join (HTMLScrambler.reassemble
        (convertChunk asciiCodec asciiCodec) [['a'], ['b']]
        ["<b>"])).data = pre ++ ("<b>" : String).data ++ post) :=
  ⟨⟨by decide, by decide, by decide⟩,
   C6_unencodable_charref.1 asciiCodec asciiCodec "é" 'é' (by decide)
     (by decide) (by decide),
   C6_unencodable_charref.2 (convertChunk asciiCodec asciiCodec)
     [['a'], ['b']] ["<b>"] (by decide) "<b>" (by decide)⟩

/-! ### The shape relation: two scrambles of the same text agree
everywhere except at alphanumeric positions -/

/-- Is the character alphanumeric (subject to scrambling)? -/
def isAlnum (c : Char) : Bool := pyIsAlpha c || pyIsDigit c

/-- Two characters are shape-related when they can only differ if both
are alphanumeric. -/
def shapeR (a b : Char) : Prop :=
  (isAlnum a = false ∨ isAlnum b = false) → a = b

theorem shapeR_refl (c : Char) : shapeR c c := fun _ => rfl

theorem forall₂_shapeR_refl (l : List Char) : List.Forall₂ shapeR l l :=
  List.forall₂_same.mpr (fun x _ => shapeR_refl x)

/-- The replay relation `outPt` implies the shape relation: a literal
position is unchanged, and an alphanumeric position stays
alphanumeric. -/
theorem outPt_shapeR {pres : Bool} {a b : Char} (h : outPt pres a b) :
    shapeR a b := by
  intro hcond
  rcases hcond with hna | hnb
  · have : pyIsAlpha a = false ∧ pyIsDigit a = false := by
      simp [isAlnum] at hna
      exact hna
    exact (h.1 (classF_litB.mpr this)).symm
  · by_cases ha : pyIsAlpha a = true
    · have := (h.2.1 ha).1
      simp [isAlnum, this] at hnb
    · by_cases hd : pyIsDigit a = true
      · have hcl : classF pres a = .digitB :=
          classF_digitB.mpr ⟨by simpa using ha, hd⟩
        have := h.2.2 hcl
        simp [isAlnum, this] at hnb
      · exact (h.1 (classF_litB.mpr
          ⟨by simpa using ha, by simpa using hd⟩)).symm

/-- Two outputs replayed from the same input are shape-related. -/
theorem shapeR_comp {j a b : Char} (h1 : shapeR j a) (h2 : shapeR j b) :
    shapeR a b := by
  intro hcond
  rcases hcond with hna | hnb
  · have hj : j = a := h1 (Or.inr hna)
    subst hj
    exact h2 (Or.inl hna)
  · have hj : j = b := h2 (Or.inr hnb)
    subst hj
    exact (h1 (Or.inl hnb)).symm

theorem forall₂_shapeR_comp {j o1 o2 : List Char}
    (h1 : List.Forall₂ shapeR j o1) (h2 : List.Forall₂ shapeR j o2) :
    List.Forall₂ shapeR o1 o2 := by
  induction h1 generalizing o2 with
  | nil =>
    rw [List.forall₂_nil_left_iff.mp h2]
    exact List.Forall₂.nil
  | cons hab hrest ih =>
    cases h2 with
    | cons hab2 hrest2 =>
      exact List.Forall₂.cons (shapeR_comp hab hab2) (ih hrest2)

theorem shapeR_marker {a b : Char} (h : shapeR a b) :
    (a = '<' ↔ b = '<') ∧ (a = '>' ↔ b = '>') := by
  constructor
  · constructor
    · rintro rfl
      exact (h (Or.inl (by decide))).symm
    · rintro rfl
      exact h (Or.inr (by decide))
  · constructor
    · rintro rfl
      exact (h (Or.inl (by decide))).symm
    · rintro rfl
      exact h (Or.inr (by decide))

/-! ### Congruence of the placeholder split -/

theorem splitOnMarker_ne_nil : ∀ l : List Char, splitOnMarker l ≠ [] := by
  intro l
  match l with
  | [] => simp [splitOnMarker]
  | [c] => simp [splitOnMarker]
  | a :: b :: rest =>
    rw [splitOnMarker]
    split
    · simp
    · split <;> simp

theorem splitOnMarker_cong_n (n : Nat) :
    ∀ l1 l2 : List Char, l1.length ≤ n → List.Forall₂ shapeR l1 l2 →
      List.Forall₂ (List.Forall₂ shapeR) (splitOnMarker l1)
        (splitOnMarker l2) := by
  induction n with
  | zero =>
    intro l1 l2 hlen h
    have h1 : l1 = [] := List.length_eq_zero.mp (Nat.le_zero.mp hlen)
    subst h1
    rw [List.forall₂_nil_left_iff.mp h]
    exact List.Forall₂.cons List.Forall₂.nil List.Forall₂.nil
  | succ n ih =>
    intro l1 l2 hlen h
    match l1, l2, h with
    | [], [], _ =>
      exact List.Forall₂.cons List.Forall₂.nil List.Forall₂.nil
    | [a], [b], h =>
      have hab : shapeR a b := (List.forall₂_cons.mp h).1
      exact List.Forall₂.cons (List.Forall₂.cons hab List.Forall₂.nil)
        List.Forall₂.nil
    | a :: a2 :: r1, b :: b2 :: r2, h =>
      obtain ⟨hab, h'⟩ := List.forall₂_cons.mp h
      obtain ⟨hab2, h''⟩ := List.forall₂_cons.mp h'
      by_cases hm : a = '<' ∧ a2 = '>'
      · have hbm : b = '<' ∧ b2 = '>' :=
          ⟨(shapeR_marker hab).1.mp hm.1, (shapeR_marker hab2).2.mp hm.2⟩
        rw [splitOnMarker, if_pos hm, splitOnMarker, if_pos hbm]
        refine List.Forall₂.cons List.Forall₂.nil ?_
        exact ih r1 r2 (by simp at hlen; omega) h''
      · have hbm : ¬ (b = '<' ∧ b2 = '>') := by
          intro hx
          exact hm ⟨(shapeR_marker hab).1.mpr hx.1,
                    (shapeR_marker hab2).2.mpr hx.2⟩
        rw [splitOnMarker, if_neg hm, splitOnMarker, if_neg hbm]
        have hrec := ih (a2 :: r1) (b2 :: r2) (by simp at hlen ⊢; omega) h'
        rcases hs1 : splitOnMarker (a2 :: r1) with _ | ⟨h1, t1⟩
        · exact absurd hs1 (splitOnMarker_ne_nil _)
        rcases hs2 : splitOnMarker (b2 :: r2) with _ | ⟨h2, t2⟩
        · exact absurd hs2 (splitOnMarker_ne_nil _)
        rw [hs1, hs2] at hrec
        cases hrec with
        | cons hh tt =>
          exact List.Forall₂.cons (List.Forall₂.cons hab hh) tt

theorem splitOnMarker_cong {l1 l2 : List Char}
    (h : List.Forall₂ shapeR l1 l2) :
    List.Forall₂ (List.Forall₂ shapeR) (splitOnMarker l1)
      (splitOnMarker l2) :=
  splitOnMarker_cong_n l1.length l1 l2 (Nat.le_refl _) h

/-! ### Counting placeholder pieces (claim C2) -/

/-- Prepending characters that are not angle brackets never changes the
number of placeholder pieces. -/
theorem splitOnMarker_prepend :
    ∀ l m : List Char, (∀ c ∈ l, c ≠ '<' ∧ c ≠ '>') →
      (splitOnMarker (l ++ m)).length = (splitOnMarker m).length := by
  intro l
  induction l with
  | nil => intro m _; rfl
  | cons c l' ih =>
    intro m hc
    have hcm : c ≠ '<' := (hc c (by simp)).1
    have hrest : ∀ d ∈ l', d ≠ '<' ∧ d ≠ '>' :=
      fun d hd => hc d (List.mem_cons_of_mem _ hd)
    show (splitOnMarker (c :: (l' ++ m))).length = _
    rcases hlm : l' ++ m with _ | ⟨d, r⟩
    · have hl : l' = [] := by
        cases l' <;> simp_all
      have hm : m = [] := by
        cases m <;> simp_all
      subst hm
      simp [splitOnMarker]
    · rw [splitOnMarker, if_neg (by simp [hcm])]
      rcases hs : splitOnMarker (d :: r) with _ | ⟨h1, t1⟩
      · exact absurd hs (splitOnMarker_ne_nil _)
      have := ih m hrest
      rw [hlm, hs] at this
      simp at this ⊢
      omega

/-- Joining a buffer whose entries are either the placeholder `"<>"` or
angle-free text yields exactly one placeholder piece per `"<>"` entry
plus one. -/
theorem splitOnMarker_join_count :
    ∀ bufs : List String,
      (∀ e ∈ bufs, e = "<>" ∨ ∀ c ∈ e.data, c ≠ '<' ∧ c ≠ '>') →
      (splitOnMarker (bufs.map String.data).flatten).length =
        bufs.count "<>" + 1 := by
  intro bufs
  induction bufs with
  | nil => intro _; rfl
  | cons e rest ih =>
    intro h
    have hrest : ∀ x ∈ rest, x = "<>" ∨ ∀ c ∈ x.data, c ≠ '<' ∧ c ≠ '>' :=
      fun x hx => h x (List.mem_cons_of_mem _ hx)
    by_cases he : e = "<>"
    · subst he
      show (splitOnMarker ('<' :: '>' ::
        (rest.map String.data).flatten)).length = _
      rw [splitOnMarker, if_pos ⟨rfl, rfl⟩]
      rw [List.count_cons]
      simp [ih hrest]
    · have hna : ∀ c ∈ e.data, c ≠ '<' ∧ c ≠ '>' := by
        rcases h e (by simp) with h1 | h2
        · exact absurd h1 he
        · exact h2
      show (splitOnMarker (e.data ++ (rest.map String.data).flatten)).length = _
      rw [splitOnMarker_prepend e.data _ hna, ih hrest, List.count_cons]
      simp [he]

/-- The reassembly invariant on the scrambler state: one `"<>"` buffer
entry per markup-queue entry, and every buffer entry is either the
placeholder itself or angle-free text. -/
def BufOk (st : HTMLScrambler) : Prop :=
  st.buf.count "<>" = st.html.length ∧
  (∀ e ∈ st.buf, e = "<>" ∨ ∀ c ∈ e.data, c ≠ '<' ∧ c ≠ '>')

theorem count_append_one (l : List String) :
    (l ++ ["<>"]).count "<>" = l.count "<>" + 1 := by
  simp [List.count_append]

theorem count_append_other {s : String} (l : List String) (h : s ≠ "<>") :
    (l ++ [s]).count "<>" = l.count "<>" := by
  simp [List.count_append, List.count_singleton']
  simp [h]

theorem processEvent_bufOk (sh : List Char → List Char)
    (st : HTMLScrambler) (e : Event) (hst : BufOk st)
    (he : ∀ s : String, e = Event.data s →
      ∀ c ∈ s.data, c ≠ '<' ∧ c ≠ '>') :
    BufOk (HTMLScrambler.processEvent sh st e) := by
  obtain ⟨hcount, hmem⟩ := hst
  have hmem2 : ∀ (h' : String) (x : String), x ∈ st.buf ++ ["<>"] →
      x = "<>" ∨ ∀ c ∈ x.data, c ≠ '<' ∧ c ≠ '>' := by
    intro h' x hx
    rcases List.mem_append.mp hx with hx1 | hx2
    · exact hmem x hx1
    · simp at hx2
      subst hx2
      exact Or.inl rfl
  have step : ∀ (h' : String),
      BufOk { st with buf := st.buf ++ ["<>"], html := st.html ++ [h'] } := by
    intro h'
    exact ⟨by simp [count_append_one, hcount], hmem2 h'⟩
  cases e with
  | starttag tag attrs =>
    simp only [HTMLScrambler.processEvent]
    (repeat' split) <;>
      first
        | exact ⟨hcount, hmem⟩
        | exact ⟨by simp [count_append_one, hcount], hmem2 ""⟩
  | startendtag tag attrs =>
    simp only [HTMLScrambler.processEvent]
    (repeat' split) <;>
      first
        | exact ⟨hcount, hmem⟩
        | exact ⟨by simp [count_append_one, hcount], hmem2 ""⟩
  | endtag tag =>
    simp only [HTMLScrambler.processEvent]
    (repeat' split) <;>
      first
        | exact ⟨hcount, hmem⟩
        | exact ⟨by simp [count_append_one, hcount], hmem2 ""⟩
  | data s =>
    have hs : ∀ c ∈ s.data, c ≠ '<' ∧ c ≠ '>' := he s rfl
    have hsne : s ≠ "<>" := by
      intro hx
      subst hx
      exact (hs '<' (by decide)).1 rfl
    simp only [HTMLScrambler.processEvent]
    split
    · exact step _
    · split
      · refine ⟨?_, ?_⟩
        · simp [count_append_other _ hsne, hcount]
        · intro x hx
          rcases List.mem_append.mp hx with hx1 | hx2
          · exact hmem x hx1
          · simp at hx2
            subst hx2
            exact Or.inr hs
      · exact step _
  | entityref name => exact step _
  | charref name => exact step _
  | comment s => exact step _
  | decl s =>
    simp only [HTMLScrambler.processEvent]
    (repeat' split) <;>
      exact ⟨by simp [count_append_one, hcount], hmem2 ""⟩

theorem processEvents_bufOk (sh : List Char → List Char)
    (events : List Event) :
    ∀ st : HTMLScrambler, BufOk st →
      (∀ e ∈ events, ∀ s : String, e = Event.data s →
        ∀ c ∈ s.data, c ≠ '<' ∧ c ≠ '>') →
      BufOk (HTMLScrambler.processEvents sh events st) := by
  induction events with
  | nil => intro st h _; exact h
  | cons e es ih =>
    intro st h hdata
    show BufOk (HTMLScrambler.processEvents sh es
      (HTMLScrambler.processEvent sh st e))
    exact ih _ (processEvent_bufOk sh st e h (hdata e (by simp)))
      (fun x hx => hdata x (List.mem_cons_of_mem _ hx))

/-! ### Claim C2 -/

/-- C2 counterexample: the document text `<` followed by `>` (which
Python's tokenizer delivers as two data events, e.g. for the input
`a<>b`) creates the two-character sequence `<>` in the joined text
buffer without any markup-queue entry.  The placeholder split then
produces two text pieces against an empty queue — the claimed
one-entry-per-piece correspondence fails, and the literal text `<>`
vanishes from the reassembled output. -/
theorem C2_counterexample :
    (HTMLScrambler.processEvents (fun l => l)
      [Event.data "<", Event.data ">"]
      (HTMLScrambler.init "u" false true)).html = [] ∧
    HTMLScrambler.scrambledText (fun l => l)
      (HTMLScrambler.processEvents (fun l => l)
        [Event.data "<", Event.data ">"]
        (HTMLScrambler.init "u" false true)) = some "<>" ∧
    (splitOnMarker ("<>" : String).data).length = 2 ∧
    HTMLScrambler.scramble (fun l => l) none none
      (HTMLScrambler.processEvents (fun l => l)
        [Event.data "<", Event.data ">"]
        (HTMLScrambler.init "u" false true)) = some "" := by decide

/-- C2 amended: provided no text data contains an angle bracket (so no
stray `<>` sequence can form in the text buffer), the number of `"<>"`
placeholder entries in the segment stream equals the markup-queue
length after any event stream, and the scrambled text splits into
exactly queue-length + 1 pieces, so the reassembly loop pops exactly
one queue entry after each piece but the last, consuming the queue
exactly. -/
theorem C2_amended (sh : List Char → List Char)
    (hsh : ∀ l, (sh l).Perm l) (events : List Event) (base : String)
    (hp sp : Bool)
    (hdata : ∀ e ∈ events, ∀ s : String, e = Event.data s →
      ∀ c ∈ s.data, c ≠ '<' ∧ c ≠ '>') :
    (HTMLScrambler.processEvents sh events
        (HTMLScrambler.init base hp sp)).buf.count "<>" =
      (HTMLScrambler.processEvents sh events
        (HTMLScrambler.init base hp sp)).html.length ∧
    (HTMLScrambler.scrambledText sh
        (HTMLScrambler.processEvents sh events
          (HTMLScrambler.init base hp sp))).map
        (fun s => (splitOnMarker s.data).length) =
      some ((HTMLScrambler.processEvents sh events
        (HTMLScrambler.init base hp sp)).html.length + 1) := by
  set st := HTMLScrambler.processEvents sh events
    (HTMLScrambler.init base hp sp) with hst
  have hok : BufOk st :=
    processEvents_bufOk sh events _
      ⟨by simp [HTMLScrambler.init], by intro e he; cases he⟩ hdata
  obtain ⟨out, heq, hlen, hfa, -⟩ :=
    scramble_spec true (String.join st.buf) sh hsh
  refine ⟨hok.1, ?_⟩
  have h1 : HTMLScrambler.scrambledText sh st = some (String.mk out) := by
    simp [HTMLScrambler.scrambledText, heq]
  rw [h1]
  have hshape : List.Forall₂ shapeR (String.join st.buf).data out :=
    List.Forall₂.imp (fun a b h => outPt_shapeR h) hfa
  have hpieces :
      (splitOnMarker (String.join st.buf).data).length =
        (splitOnMarker out).length :=
    (splitOnMarker_cong hshape).length_eq
  have hcnt : (splitOnMarker (String.join st.buf).data).length =
      st.buf.count "<>" + 1 := by
    rw [join_data]
    exact splitOnMarker_join_count st.buf hok.2
  show some (splitOnMarker out).length = _
  rw [← hpieces, hcnt, hok.1]

/-- Witness for C2's amended statement on the event stream
`<p>ab</p>`. -/
theorem C2_amended_witness :
    (∀ l : List Char, ((fun x => x) l).Perm l) ∧
    ((HTMLScrambler.processEvents (fun x => x)
        [Event.starttag "p" [], Event.data "ab", Event.endtag "p"]
        (HTMLScrambler.init "u" false true)).buf.count "<>" =
      (HTMLScrambler.processEvents (fun x => x)
        [Event.starttag "p" [], Event.data "ab", Event.endtag "p"]
        (HTMLScrambler.init "u" false true)).html.length ∧
    (HTMLScrambler.scrambledText (fun x => x)
        (HTMLScrambler.processEvents (fun x => x)
          [Event.starttag "p" [], Event.data "ab", Event.endtag "p"]
          (HTMLScrambler.init "u" false true))).map
        (fun s => (splitOnMarker s.data).length) =
      some ((HTMLScrambler.processEvents (fun x => x)
        [Event.starttag "p" [], Event.data "ab", Event.endtag "p"]
        (HTMLScrambler.init "u" false true)).html.length + 1)) :=
  ⟨fun l => List.Perm.refl l,
   C2_amended (fun x => x) (fun l => List.Perm.refl l)
     [Event.starttag "p" [], Event.data "ab", Event.endtag "p"]
     "u" false true
     (by
       intro e he s hes
       rcases (by simpa using he :
         e = Event.starttag "p" [] ∨ e = Event.data "ab" ∨
           e = Event.endtag "p") with rfl | rfl | rfl
       · cases hes
       · cases hes
         decide
       · cases hes)⟩

/-! ### Claim C9: two runs differ only at alphanumeric positions -/

/-- Two strings with the same shape: equal length, and equal characters
wherever either side is not alphanumeric (so markup skeleton, spacing
and punctuation coincide; only scrambled letters/digits may differ). -/
def SameShape (a b : String) : Prop := List.Forall₂ shapeR a.data b.data

theorem sameShape_refl (s : String) : SameShape s s :=
  forall₂_shapeR_refl s.data

theorem sameShape_append {a b c d : String} (h1 : SameShape a b)
    (h2 : SameShape c d) : SameShape (a ++ c) (b ++ d) := by
  show List.Forall₂ shapeR (a ++ c).data (b ++ d).data
  rw [string_data_append, string_data_append]
  exact List.rel_append h1 h2

theorem alnum_escChar {c : Char} (h : isAlnum c = true) :
    escChar c = [c] := by
  rcases Bool.or_eq_true_iff.mp (by simpa [isAlnum] using h) with ha | hd
  · exact alphaChars_escChar c (pyIsAlpha_iff_mem.mp ha)
  · exact digitChars_escChar c (pyIsDigit_iff_mem.mp hd)

theorem escData_cong : ∀ {l1 l2 : List Char},
    List.Forall₂ shapeR l1 l2 →
      List.Forall₂ shapeR (escData l1) (escData l2) := by
  intro l1 l2 h
  induction h with
  | nil => exact List.Forall₂.nil
  | cons hab hrest ih =>
    rename_i a b l1' l2'
    show List.Forall₂ shapeR (escChar a ++ escData l1')
      (escChar b ++ escData l2')
    by_cases hcond : isAlnum a = false ∨ isAlnum b = false
    · have : a = b := hab hcond
      subst this
      exact List.rel_append (forall₂_shapeR_refl (escChar a)) ih
    · have ha : isAlnum a = true := by
        cases hx : isAlnum a
        · exact absurd (Or.inl hx) hcond
        · rfl
      have hb : isAlnum b = true := by
        cases hx : isAlnum b
        · exact absurd (Or.inr hx) hcond
        · rfl
      rw [alnum_escChar ha, alnum_escChar hb]
      exact List.Forall₂.cons hab ih

theorem htmlEscape_cong {a b : String} (h : SameShape a b) :
    SameShape (htmlEscape a) (htmlEscape b) :=
  escData_cong h

theorem attrScramble_cong (sh1 sh2 : List Char → List Char)
    (hsh1 : ∀ l, (sh1 l).Perm l) (hsh2 : ∀ l, (sh2 l).Perm l)
    (v : String) :
    SameShape (HTMLScrambler.attrScramble sh1 v)
      (HTMLScrambler.attrScramble sh2 v) := by
  obtain ⟨o1, heq1, -, hfa1, -⟩ := scramble_spec true v sh1 hsh1
  obtain ⟨o2, heq2, -, hfa2, -⟩ := scramble_spec true v sh2 hsh2
  have e1 : HTMLScrambler.attrScramble sh1 v = String.mk o1 := by
    simp [HTMLScrambler.attrScramble, heq1]
  have e2 : HTMLScrambler.attrScramble sh2 v = String.mk o2 := by
    simp [HTMLScrambler.attrScramble, heq2]
  rw [e1, e2]
  exact forall₂_shapeR_comp
    (List.Forall₂.imp (fun a b h => outPt_shapeR h) hfa1)
    (List.Forall₂.imp (fun a b h => outPt_shapeR h) hfa2)

theorem processAttrValue_cong (sh1 sh2 : List Char → List Char)
    (hsh1 : ∀ l, (sh1 l).Perm l) (hsh2 : ∀ l, (sh2 l).Perm l)
    (base : String) (hp : Bool) (tag attr v : String) :
    SameShape (HTMLScrambler.processAttrValue sh1 base hp tag attr v)
      (HTMLScrambler.processAttrValue sh2 base hp tag attr v) := by
  by_cases h1 : (tag = "a" ∧ attr = "href") ∨
      ((tag = "frame" ∨ tag = "iframe") ∧ attr = "src")
  · simp only [HTMLScrambler.processAttrValue, if_pos h1]
    exact sameShape_refl _
  · by_cases h2 : attr = "action" ∨ attr = "href" ∨ attr = "src"
    · simp only [HTMLScrambler.processAttrValue, if_neg h1, if_pos h2]
      exact sameShape_refl _
    · by_cases h3 : attr = "srcset"
      · simp only [HTMLScrambler.processAttrValue, if_neg h1, if_neg h2,
          if_pos h3]
        exact sameShape_refl _
      · by_cases h4 : attr = "alt" ∨ attr = "placeholder" ∨
            attr = "title" ∨ attr = "value"
        · simp only [HTMLScrambler.processAttrValue, if_neg h1, if_neg h2,
            if_neg h3, if_pos h4]
          exact htmlEscape_cong (attrScramble_cong sh1 sh2 hsh1 hsh2 v)
        · simp only [HTMLScrambler.processAttrValue, if_neg h1, if_neg h2,
            if_neg h3, if_neg h4]
          exact sameShape_refl _

theorem foldl_sameShape {α : Type} (f1 f2 : String → α → String)
    (hstep : ∀ acc1 acc2 p, SameShape acc1 acc2 →
      SameShape (f1 acc1 p) (f2 acc2 p)) :
    ∀ (l : List α) (acc1 acc2 : String), SameShape acc1 acc2 →
      SameShape (l.foldl f1 acc1) (l.foldl f2 acc2) := by
  intro l
  induction l with
  | nil => intro _ _ h; exact h
  | cons p pl ih => intro a1 a2 h; exact ih _ _ (hstep a1 a2 p h)

theorem buildStarttag_cong (sh1 sh2 : List Char → List Char)
    (hsh1 : ∀ l, (sh1 l).Perm l) (hsh2 : ∀ l, (sh2 l).Perm l)
    (base : String) (hp x : Bool) (tag : String)
    (attrs : List (String × Option String)) (emp : Bool) :
    SameShape (HTMLScrambler.buildStarttag sh1 base hp x tag attrs emp)
      (HTMLScrambler.buildStarttag sh2 base hp x tag attrs emp) := by
  simp only [HTMLScrambler.buildStarttag]
  have hfold : SameShape
      (attrs.foldl (fun acc p =>
        match p.2 with
        | some v => acc ++ " " ++ p.1 ++ "=\"" ++
            HTMLScrambler.processAttrValue sh1 base hp tag p.1 v ++ "\""
        | none => if x then acc ++ " " ++ p.1 ++ "=\"" ++ p.1 ++ "\""
                  else acc ++ " " ++ p.1) ("<" ++ tag))
      (attrs.foldl (fun acc p =>
        match p.2 with
        | some v => acc ++ " " ++ p.1 ++ "=\"" ++
            HTMLScrambler.processAttrValue sh2 base hp tag p.1 v ++ "\""
        | none => if x then acc ++ " " ++ p.1 ++ "=\"" ++ p.1 ++ "\""
                  else acc ++ " " ++ p.1) ("<" ++ tag)) := by
    apply foldl_sameShape _ _ ?_ attrs _ _ (sameShape_refl _)
    intro acc1 acc2 p h
    have hh : SameShape (acc1 ++ " " ++ p.1) (acc2 ++ " " ++ p.1) :=
      sameShape_append (sameShape_append h (sameShape_refl _))
        (sameShape_refl _)
    rcases p with ⟨a, v⟩
    cases v with
    | some v =>
      exact sameShape_append
        (sameShape_append (sameShape_append hh (sameShape_refl _))
          (processAttrValue_cong sh1 sh2 hsh1 hsh2 base hp tag a v))
        (sameShape_refl _)
    | none =>
      by_cases hxv : x = true
      · rw [if_pos hxv, if_pos hxv]
        exact sameShape_append
          (sameShape_append (sameShape_append hh (sameShape_refl _))
            (sameShape_refl _)) (sameShape_refl _)
      · rw [if_neg hxv, if_neg hxv]
        exact hh
  by_cases hcl : x = true ∧ (emp = true ∨ voidElements.contains tag = true) <;>
    by_cases hin : tag = "input"
  · rw [if_pos hcl, if_pos hcl, if_pos hin, if_pos hin]
    exact sameShape_append
      (sameShape_append (sameShape_append hfold (sameShape_refl _))
        (sameShape_refl _)) (sameShape_refl _)
  · rw [if_pos hcl, if_pos hcl, if_neg hin, if_neg hin]
    exact sameShape_append hfold (sameShape_refl _)
  · rw [if_neg hcl, if_neg hcl, if_pos hin, if_pos hin]
    exact sameShape_append
      (sameShape_append (sameShape_append hfold (sameShape_refl _))
        (sameShape_refl _)) (sameShape_refl _)
  · rw [if_neg hcl, if_neg hcl, if_neg hin, if_neg hin]
    exact sameShape_append hfold (sameShape_refl _)

/-- The relation between the states of two runs of the same document
with different shuffle outcomes: every field coincides except the
markup queue, whose entries are pairwise shape-equal. -/
def HRel (st1 st2 : HTMLScrambler) : Prop :=
  st1.base_url = st2.base_url ∧ st1.is_honeypot = st2.is_honeypot ∧
  st1.suppress_scripts = st2.suppress_scripts ∧
  st1.is_scrambling = st2.is_scrambling ∧
  st1.is_script = st2.is_script ∧ st1.is_xhtml = st2.is_xhtml ∧
  st1.buf = st2.buf ∧ List.Forall₂ SameShape st1.html st2.html

theorem processEvent_cong (sh1 sh2 : List Char → List Char)
    (hsh1 : ∀ l, (sh1 l).Perm l) (hsh2 : ∀ l, (sh2 l).Perm l)
    (st1 st2 : HTMLScrambler) (h : HRel st1 st2) (e : Event) :
    HRel (HTMLScrambler.processEvent sh1 st1 e)
      (HTMLScrambler.processEvent sh2 st2 e) := by
  obtain ⟨hb, hhp, hss, hscr, hsc, hx, hbuf, hhtml⟩ := h
  rcases st1 with ⟨b1, p1, s1, buf1, html1, scr1, sc1, x1⟩
  rcases st2 with ⟨b2, p2, s2, buf2, html2, scr2, sc2, x2⟩
  simp only at hb hhp hss hscr hsc hx hbuf hhtml
  subst hb hhp hss hscr hsc hx hbuf
  have happ : ∀ {y1 y2 : String}, SameShape y1 y2 →
      List.Forall₂ SameShape (html1 ++ [y1]) (html2 ++ [y2]) :=
    fun hy => List.rel_append hhtml (List.Forall₂.cons hy List.Forall₂.nil)
  cases e with
  | starttag tag attrs =>
    simp only [HTMLScrambler.processEvent]
    by_cases h1 : tag = "script"
    · by_cases h2 : tag = "script" ∧ s1 = true
      · rw [if_pos h1, if_pos h1, if_pos h2, if_pos h2]
        exact ⟨rfl, rfl, rfl, rfl, rfl, rfl, rfl, hhtml⟩
      · rw [if_pos h1, if_pos h1, if_neg h2, if_neg h2]
        exact ⟨rfl, rfl, rfl, rfl, rfl, rfl, rfl,
          happ (buildStarttag_cong sh1 sh2 hsh1 hsh2 b1 p1 x1 tag
            attrs false)⟩
    · have h2 : ¬ (tag = "script" ∧ s1 = true) := fun hx2 => h1 hx2.1
      rw [if_neg h1, if_neg h1, if_neg h2, if_neg h2]
      by_cases h3 : dontScramble.contains tag = true
      · rw [if_pos h3, if_pos h3]
        exact ⟨rfl, rfl, rfl, rfl, rfl, rfl, rfl,
          happ (buildStarttag_cong sh1 sh2 hsh1 hsh2 b1 p1 x1 tag
            attrs false)⟩
      · rw [if_neg h3, if_neg h3]
        exact ⟨rfl, rfl, rfl, rfl, rfl, rfl, rfl,
          happ (buildStarttag_cong sh1 sh2 hsh1 hsh2 b1 p1 x1 tag
            attrs false)⟩
  | startendtag tag attrs =>
    simp only [HTMLScrambler.processEvent]
    by_cases h2 : tag = "script" ∧ s1 = true
    · rw [if_pos h2, if_pos h2]
      exact ⟨rfl, rfl, rfl, rfl, rfl, rfl, rfl, hhtml⟩
    · rw [if_neg h2, if_neg h2]
      exact ⟨rfl, rfl, rfl, rfl, rfl, rfl, rfl,
        happ (buildStarttag_cong sh1 sh2 hsh1 hsh2 b1 p1 x1 tag
          attrs true)⟩
  | endtag tag =>
    simp only [HTMLScrambler.processEvent]
    by_cases h1 : tag = "script"
    · by_cases h2 : tag = "script" ∧ s1 = true
      · rw [if_pos h1, if_pos h1, if_pos h2, if_pos h2]
        exact ⟨rfl, rfl, rfl, rfl, rfl, rfl, rfl, hhtml⟩
      · rw [if_pos h1, if_pos h1, if_neg h2, if_neg h2]
        exact ⟨rfl, rfl, rfl, rfl, rfl, rfl, rfl,
          happ (sameShape_refl _)⟩
    · have h2 : ¬ (tag = "script" ∧ s1 = true) := fun hx2 => h1 hx2.1
      rw [if_neg h1, if_neg h1, if_neg h2, if_neg h2]
      by_cases h3 : dontScramble.contains tag = true
      · rw [if_pos h3, if_pos h3]
        exact ⟨rfl, rfl, rfl, rfl, rfl, rfl, rfl, happ (sameShape_refl _)⟩
      · rw [if_neg h3, if_neg h3]
        exact ⟨rfl, rfl, rfl, rfl, rfl, rfl, rfl, happ (sameShape_refl _)⟩
  | data s =>
    simp only [HTMLScrambler.processEvent]
    by_cases h1 : sc1 = true ∧ s1 = true
    · rw [if_pos h1, if_pos h1]
      exact ⟨rfl, rfl, rfl, rfl, rfl, rfl, rfl, happ (sameShape_refl _)⟩
    · rw [if_neg h1, if_neg h1]
      by_cases h2 : scr1 = true
      · rw [if_pos h2, if_pos h2]
        exact ⟨rfl, rfl, rfl, rfl, rfl, rfl, rfl, hhtml⟩
      · rw [if_neg h2, if_neg h2]
        exact ⟨rfl, rfl, rfl, rfl, rfl, rfl, rfl, happ (sameShape_refl _)⟩
  | entityref name =>
    exact ⟨rfl, rfl, rfl, rfl, rfl, rfl, rfl, happ (sameShape_refl _)⟩
  | charref name =>
    exact ⟨rfl, rfl, rfl, rfl, rfl, rfl, rfl, happ (sameShape_refl _)⟩
  | comment s =>
    exact ⟨rfl, rfl, rfl, rfl, rfl, rfl, rfl, happ (sameShape_refl _)⟩
  | decl s =>
    simp only [HTMLScrambler.processEvent]
    by_cases h1 : containsSeq "//DTD XHTML ".data s.data = true
    · rw [if_pos h1, if_pos h1]
      exact ⟨rfl, rfl, rfl, rfl, rfl, rfl, rfl, happ (sameShape_refl _)⟩
    · rw [if_neg h1, if_neg h1]
      exact ⟨rfl, rfl, rfl, rfl, rfl, rfl, rfl, happ (sameShape_refl _)⟩

theorem processEvents_cong (sh1 sh2 : List Char → List Char)
    (hsh1 : ∀ l, (sh1 l).Perm l) (hsh2 : ∀ l, (sh2 l).Perm l)
    (events : List Event) :
    ∀ st1 st2 : HTMLScrambler, HRel st1 st2 →
      HRel (HTMLScrambler.processEvents sh1 events st1)
        (HTMLScrambler.processEvents sh2 events st2) := by
  induction events with
  | nil => intro st1 st2 h; exact h
  | cons e es ih =>
    intro st1 st2 h
    exact ih _ _ (processEvent_cong sh1 sh2 hsh1 hsh2 st1 st2 h e)

theorem scramble_none_eq (sh : List Char → List Char)
    (st : HTMLScrambler) :
    HTMLScrambler.scramble sh none none st =
      (HTMLScrambler.scrambledText sh st).map
        (fun s => String.join
          (HTMLScrambler.reassemble id (splitOnMarker s.data) st.html)) :=
  rfl

theorem reassemble_cong :
    ∀ {p1 p2 : List (List Char)} {h1 h2 : List String},
      List.Forall₂ (List.Forall₂ shapeR) p1 p2 →
      List.Forall₂ SameShape h1 h2 →
      List.Forall₂ SameShape (HTMLScrambler.reassemble id p1 h1)
        (HTMLScrambler.reassemble id p2 h2) := by
  intro p1 p2 h1 h2 hp
  induction hp generalizing h1 h2 with
  | nil => intro _; exact List.Forall₂.nil
  | cons hph hpr ih =>
    intro hh
    cases hh with
    | nil => exact List.Forall₂.cons hph (ih List.Forall₂.nil)
    | cons hhh hhr =>
      exact List.Forall₂.cons hph (List.Forall₂.cons hhh (ih hhr))

theorem forall₂_data_of_sameShape : ∀ {L1 L2 : List String},
    List.Forall₂ SameShape L1 L2 →
      List.Forall₂ (List.Forall₂ shapeR) (L1.map String.data)
        (L2.map String.data) := by
  intro L1 L2 h
  induction h with
  | nil => exact List.Forall₂.nil
  | cons hx _ ih => exact List.Forall₂.cons hx ih

theorem join_cong {L1 L2 : List String}
    (h : List.Forall₂ SameShape L1 L2) :
    SameShape (String.join L1) (String.join L2) := by
  show List.Forall₂ shapeR _ _
  rw [join_data, join_data]
  exact List.rel_flatten (forall₂_data_of_sameShape h)

/-- C9 counterexample: two runs of the pipeline on the same six inputs
(events of a document whose text is `bc`, base `u`, honeypot off,
scripts suppressed, no encodings) with two legitimate shuffle outcomes
(identity and reversal — the reversal of the fed consonant buffer
`['b','c']` is a permutation of it) produce the different documents
`bc` and `cb`: the pipeline is not a function of those inputs alone. -/
theorem C9_counterexample :
    HTMLScrambler.scramble (fun l => l) none none
      (HTMLScrambler.processEvents (fun l => l) [Event.data "bc"]
        (HTMLScrambler.init "u" false true)) = some "bc" ∧
    HTMLScrambler.scramble List.reverse none none
      (HTMLScrambler.processEvents List.reverse [Event.data "bc"]
        (HTMLScrambler.init "u" false true)) = some "cb" ∧
    (List.reverse ['b', 'c']).Perm ['b', 'c'] ∧
    ("bc" : String) ≠ "cb" := by decide

/-- C9 amended: the pipeline is a pure function of the six inputs AND
the random shuffle outcome.  Across any two shuffle outcomes the
results have the same length and agree at every position where either
output is non-alphanumeric: the markup skeleton, spacing and
punctuation are identical, and only the scrambled letters and digits
differ. -/
theorem C9_amended (sh1 sh2 : List Char → List Char)
    (hsh1 : ∀ l, (sh1 l).Perm l) (hsh2 : ∀ l, (sh2 l).Perm l)
    (events : List Event) (base : String) (hp sp : Bool) :
    ∃ o1 o2 : String,
      HTMLScrambler.scramble sh1 none none
        (HTMLScrambler.processEvents sh1 events
          (HTMLScrambler.init base hp sp)) = some o1 ∧
      HTMLScrambler.scramble sh2 none none
        (HTMLScrambler.processEvents sh2 events
          (HTMLScrambler.init base hp sp)) = some o2 ∧
      o1.length = o2.length ∧
      List.Forall₂ shapeR o1.data o2.data := by
  set st1 := HTMLScrambler.processEvents sh1 events
    (HTMLScrambler.init base hp sp) with hst1
  set st2 := HTMLScrambler.processEvents sh2 events
    (HTMLScrambler.init base hp sp) with hst2
  have hrel : HRel st1 st2 :=
    processEvents_cong sh1 sh2 hsh1 hsh2 events _ _
      ⟨rfl, rfl, rfl, rfl, rfl, rfl, rfl, List.Forall₂.nil⟩
  have hbuf : st1.buf = st2.buf := hrel.2.2.2.2.2.2.1
  have hhtml : List.Forall₂ SameShape st1.html st2.html :=
    hrel.2.2.2.2.2.2.2
  obtain ⟨o1, heq1, -, hfa1, -⟩ :=
    scramble_spec true (String.join st1.buf) sh1 hsh1
  obtain ⟨o2, heq2, -, hfa2, -⟩ :=
    scramble_spec true (String.join st2.buf) sh2 hsh2
  have hfa2' : List.Forall₂ (outPt true) (String.join st1.buf).data o2 := by
    rw [hbuf]
    exact hfa2
  have hshape : List.Forall₂ shapeR o1 o2 :=
    forall₂_shapeR_comp
      (List.Forall₂.imp (fun a b h => outPt_shapeR h) hfa1)
      (List.Forall₂.imp (fun a b h => outPt_shapeR h) hfa2')
  have ht1 : HTMLScrambler.scrambledText sh1 st1 = some (String.mk o1) := by
    simp [HTMLScrambler.scrambledText, heq1]
  have ht2 : HTMLScrambler.scrambledText sh2 st2 = some (String.mk o2) := by
    simp [HTMLScrambler.scrambledText, heq2]
  have hfinal : SameShape
      (String.join (HTMLScrambler.reassemble id (splitOnMarker o1)
        st1.html))
      (String.join (HTMLScrambler.reassemble id (splitOnMarker o2)
        st2.html)) :=
    join_cong (reassemble_cong (splitOnMarker_cong hshape) hhtml)
  refine ⟨String.join (HTMLScrambler.reassemble id (splitOnMarker o1)
      st1.html),
    String.join (HTMLScrambler.reassemble id (splitOnMarker o2)
      st2.html), ?_, ?_, ?_, ?_⟩
  · rw [scramble_none_eq, ht1]
    rfl
  · rw [scramble_none_eq, ht2]
    rfl
  · exact hfinal.length_eq
  · exact hfinal

/-- Witness for C9's amended statement: both runs with the identity
shuffle on the document `<p>bc</p>`. -/
theorem C9_amended_witness :
    (∀ l : List Char, ((fun x => x) l).Perm l) ∧
    ∃ o1 o2 : String,
      HTMLScrambler.scramble (fun x => x) none none
        (HTMLScrambler.processEvents (fun x => x)
          [Event.starttag "p" [], Event.data "bc", Event.endtag "p"]
          (HTMLScrambler.init "u" false true)) = some o1 ∧
      HTMLScrambler.scramble (fun x => x) none none
        (HTMLScrambler.processEvents (fun x => x)
          [Event.starttag "p" [], Event.data "bc", Event.endtag "p"]
          (HTMLScrambler.init "u" false true)) = some o2 ∧
      o1.length = o2.length ∧
      List.Forall₂ shapeR o1.data o2.data :=
  ⟨fun l => List.Perm.refl l,
   C9_amended (fun x => x) (fun x => x) (fun l => List.Perm.refl l)
     (fun l => List.Perm.refl l)
     [Event.starttag "p" [], Event.data "bc", Event.endtag "p"]
     "u" false true⟩
